import Mathlib

/-!
Verification of `nonrad/utils.py` against its natural-language specification.

The Python source is shallowly embedded: numpy float arrays become functions
`ℕ → ℝ` together with an explicit length, in-place array writes become the
pointwise update `upd`/`upd2` threaded through a fold that mirrors the
`for i, x in enumerate(...)` loops, rationals stand for exact sample inputs
and reals for the computed floating-point quantities.  External collaborators
(pymatgen structures, WAVECAR/vasprun readers, scipy's optimizer) are modelled
as typed data providers exactly as the specification's §1 prescribes.
-/

/-- Pointwise update of a one-dimensional array-as-function: models a numpy
array assignment `f[i] = v`. -/
def upd (f : ℕ → ℝ) (i : ℕ) (v : ℝ) : ℕ → ℝ :=
  fun j => if j = i then v else f j

/-- Pointwise update of a two-dimensional array-as-function: models a numpy
assignment `m[i, j] = v`. -/
def upd2 (m : ℕ → ℕ → ℝ) (i j : ℕ) (v : ℝ) : ℕ → ℕ → ℝ :=
  fun a b => if a = i ∧ b = j then v else m a b

/-- Fold over a list carrying the running index, mirroring Python's
`for i, x in enumerate(xs, start=n)`. -/
def foldIdx (f : β → ℕ → α → β) : β → ℕ → List α → β
  | b, _, [] => b
  | b, n, a :: as => foldIdx f (f b n a) (n + 1) as

/-- Indexed map, mirroring a Python list comprehension
`[g(i, x) for i, x in enumerate(xs, start=n)]`. -/
def pyEnumMap (g : ℕ → α → β) : ℕ → List α → List β
  | _, [] => []
  | n, a :: as => g n a :: pyEnumMap g (n + 1) as

/-! ## Geometry: structures, dQ, interpolation (`get_cc_structures`, `get_dQ`,
`get_Q_from_struct` from `nonrad/utils.py`).

A pymatgen `Structure` is an external collaborator; per the specification's
data model it is an ordered sequence of sites, each with a 3-D Cartesian
position and an atomic mass.  Exact sample positions are rationals. -/

/-- One site of a structure: atomic mass of its species and Cartesian
coordinates (Å). -/
structure Site where
  mass : ℚ
  cx : ℚ
  cy : ℚ
  cz : ℚ
  deriving DecidableEq

/-- A structure: an ordered list of sites. -/
structure Struct where
  sites : List Site
  deriving DecidableEq

/-- Squared Euclidean distance between the positions of two sites; models
`site_a.distance(site_b) ** 2`. -/
def distSq (a b : Site) : ℚ :=
  (a.cx - b.cx) ^ 2 + (a.cy - b.cy) ^ 2 + (a.cz - b.cz) ^ 2

/-- Embedding of `get_dQ`:
`np.sqrt(np.sum(list(map(lambda x: x[0].distance(x[1])**2 * x[0].specie.atomic_mass, zip(ground, excited)))))`. -/
noncomputable def get_dQ (ground excited : Struct) : ℝ :=
  Real.sqrt ((List.zipWith (fun a b => distSq a b * a.mass) ground.sites excited.sites).sum : ℚ)

/-- Linear interpolation at parameter `t` between two structures, per site
`position = ground + t * (excited - ground)`; species (mass) follows the
ground structure.  Models `ground.interpolate(excited, nimages=[..t..])`
of the external structure library, as described in the specification. -/
def interpolateAt (ground excited : Struct) (t : ℚ) : Struct :=
  ⟨List.zipWith (fun a b =>
      { mass := a.mass
        cx := a.cx + t * (b.cx - a.cx)
        cy := a.cy + t * (b.cy - a.cy)
        cz := a.cz + t * (b.cz - a.cz) }) ground.sites excited.sites⟩

/-- Embedding of `get_cc_structures`: drop zero displacements when
`remove_zero`, then interpolate the ground-side family at each displacement
and the excited-side family at each displacement plus one. -/
def get_cc_structures (ground excited : Struct) (displacements : List ℚ)
    (remove_zero : Bool) : List Struct × List Struct :=
  let d := if remove_zero then displacements.filter (fun q => decide (q ≠ 0)) else displacements
  (d.map (fun q => interpolateAt ground excited q),
   d.map (fun q => interpolateAt ground excited (q + 1)))

/-- A numpy floating-point value arising in `get_Q_from_struct`: a finite
rational, a signed infinity (from `x / 0` with `x ≠ 0`) or NaN
(from `0 / 0`). -/
inductive NumVal where
  | negInf : NumVal
  | val : ℚ → NumVal
  | posInf : NumVal
  | nan : NumVal
  deriving DecidableEq

/-- numpy elementwise division semantics for the fraction
`(struct - ground) / (excited - ground)`. -/
def pyDiv (a b : ℚ) : NumVal :=
  if b = 0 then (if a = 0 then .nan else if 0 < a then .posInf else .negInf)
  else .val (a / b)

/-- numpy equality on floats: NaN compares unequal to everything, including
itself; infinities and finite values compare structurally. -/
def nvEq : NumVal → NumVal → Bool
  | .nan, _ => false
  | _, .nan => false
  | .negInf, .negInf => true
  | .posInf, .posInf => true
  | .val a, .val b => a == b
  | _, _ => false

/-- Sort order used by `np.sort`: `-inf < finite < +inf` and NaN sorts last. -/
def nvLe : NumVal → NumVal → Bool
  | .negInf, _ => true
  | _, .negInf => false
  | .val a, .val b => a ≤ b
  | .val _, _ => true
  | _, .val _ => false
  | .posInf, _ => true
  | .nan, .nan => true
  | .nan, .posInf => false

/-- Insert into a sorted list (insertion step of the sort modelling
`np.sort`). -/
def nvInsert (a : NumVal) : List NumVal → List NumVal
  | [] => [a]
  | b :: bs => if nvLe a b then a :: b :: bs else b :: nvInsert a bs

/-- Model of `np.sort` (ascending, NaNs last). -/
def pySort : List NumVal → List NumVal
  | [] => []
  | a :: as => nvInsert a (pySort as)

/-- Round half to even (numpy's rounding mode for `np.round`). -/
def roundHalfEven (y : ℚ) : ℤ :=
  if y - ⌊y⌋ < 1 / 2 then ⌊y⌋
  else if 1 / 2 < y - ⌊y⌋ then ⌊y⌋ + 1
  else if 2 ∣ ⌊y⌋ then ⌊y⌋ else ⌊y⌋ + 1

/-- Model of `np.round(q, 6)`. -/
def round6 (q : ℚ) : ℚ := (roundHalfEven (q * 10 ^ 6) : ℚ) / 10 ^ 6

/-- `np.round(-, 6)` lifted to numpy values: NaN and infinities are fixed. -/
def nvRound6 : NumVal → NumVal
  | .val q => .val (round6 q)
  | x => x

/-- Consecutive-equal grouping as `itertools.groupby` sees it: run-length
encoding with numpy float equality (NaN never joins a run). -/
def groupRuns : List NumVal → List (NumVal × ℕ)
  | [] => []
  | a :: as =>
    match groupRuns as with
    | [] => [(a, 1)]
    | (b, n) :: rest => if nvEq a b then (b, n + 1) :: rest else (a, 1) :: (b, n) :: rest

/-- Python's `max(groups, key=lambda x: len(list(x[1])))`: the first group of
maximal length wins (later groups replace only on strictly greater length). -/
def pickFirstMax : List (NumVal × ℕ) → Option (NumVal × ℕ)
  | [] => none
  | g :: gs => some (gs.foldl (fun best h => if best.2 < h.2 then h else best) g)

/-- The skip test `ground[i].distance(excited[i]) < tol` of
`get_Q_from_struct`, expressed on squared distances (distances are
nonnegative, so `dist < tol` iff `0 < tol` and `dist² < tol²`). -/
def siteSkip (a b : Site) (tol : ℚ) : Bool :=
  decide (0 < tol) && decide (distSq a b < tol ^ 2)

/-- The pooled per-axis fractional displacements `possible_x` of
`get_Q_from_struct`: three values per non-skipped site. -/
def possible_x : List Site → List Site → List Site → ℚ → List NumVal
  | g :: gs, e :: es, s :: ss, tol =>
    (if siteSkip g e tol then []
     else [pyDiv (s.cx - g.cx) (e.cx - g.cx),
           pyDiv (s.cy - g.cy) (e.cy - g.cy),
           pyDiv (s.cz - g.cz) (e.cz - g.cz)]) ++ possible_x gs es ss tol
  | _, _, _, _ => []

/-- The consensus fraction of `get_Q_from_struct`:
`max(groupby(np.sort(np.round(possible_x, 6))), key=len)[0]`.
`none` models the `ValueError` Python's `max` raises on an empty pool. -/
def get_Q_mode (ground excited struct : Struct) (tol : ℚ) : Option NumVal :=
  (pickFirstMax (groupRuns (pySort
    ((possible_x ground.sites excited.sites struct.sites tol).map nvRound6)))).map (·.1)

/-- Embedding of `get_Q_from_struct`: `dQ * consensus_fraction`.  The result
is `none` when the pool is empty (a `ValueError` in Python) or when the
consensus value is NaN or infinite (a non-finite float in Python). -/
noncomputable def get_Q_from_struct (ground excited struct : Struct) (tol : ℚ) : Option ℝ :=
  (get_Q_mode ground excited struct tol).bind fun v =>
    match v with
    | .val q => some (get_dQ ground excited * (q : ℚ))
    | _ => none

/-! ## Harmonic fit (`get_omega_from_PES`).

The physical constants live in `nonrad/nonrad.py`, which is not part of the
provided source tree; they are modelled from the spec.  `scipy.optimize.curve_fit`
is an external collaborator: it is modelled by its documented interface — it
rejects a call with fewer data points than free parameters, and otherwise
defers to an optimizer (`oracle`) that either converges to some parameter
triple or fails. -/

/-- Modelled from the spec: reduced Planck constant in eV·s, a module-level
constant of `nonrad.nonrad` (absent from `src/`). -/
noncomputable def HBAR : ℝ := 6582119569 / 10 ^ 25

/-- Modelled from the spec: eV → Joule conversion, a module-level constant of
`nonrad.nonrad` (absent from `src/`). -/
noncomputable def EV2J : ℝ := 1602176634 / 10 ^ 28

/-- Modelled from the spec: Å → metre conversion, a module-level constant of
`nonrad.nonrad` (absent from `src/`). -/
noncomputable def ANGS2M : ℝ := 1 / 10 ^ 10

/-- Modelled from the spec: amu → kg conversion, a module-level constant of
`nonrad.nonrad` (absent from `src/`). -/
noncomputable def AMU2KG : ℝ := 166053906660 / 10 ^ 38

/-- The harmonic model fitted by `get_omega_from_PES`:
`f(Q, omega, Q0, dE) = 0.5 * omega**2 * (Q - Q0)**2 + dE`. -/
noncomputable def fmodel (omega Q0 dE Q : ℝ) : ℝ :=
  0.5 * omega ^ 2 * (Q - Q0) ^ 2 + dE

/-- The result triple `popt = (omega, Q0, dE)` of the curve fit. -/
abbrev FitParams := ℝ × ℝ × ℝ

/-- An optimizer backing `curve_fit`: given `Q`, `energy` and the optional
pinned `Q0` (the code's bounds `([-inf, Q0 - 1e-10, -inf], [inf, Q0, inf])`),
it returns a parameter triple or fails to converge. -/
abbrev FitOracle := List ℝ → List ℝ → Option ℝ → Except String FitParams

/-- Modelled from the spec: `scipy.optimize.curve_fit` for the 3-parameter
model `f`.  Its documented behaviour: raise `TypeError` when the number of
parameters (3) exceeds the number of data points, otherwise return whatever
the underlying least-squares optimizer produces. -/
def curve_fit (oracle : FitOracle) (Q energy : List ℝ) (pin : Option ℝ) :
    Except String FitParams :=
  if energy.length < 3 then
    .error "TypeError: The number of func parameters must not exceed the number of data points"
  else oracle Q energy pin

/-- Embedding of `get_omega_from_PES`: run the curve fit and convert the
fitted `omega` by `HBAR * popt[0] * np.sqrt(EV2J / (ANGS2M**2 * AMU2KG))`.
Any exception from `curve_fit` propagates (there is no handler). -/
noncomputable def get_omega_from_PES (oracle : FitOracle) (Q energy : List ℝ)
    (Q0 : Option ℝ) : Except String ℝ :=
  (curve_fit oracle Q energy Q0).map fun popt =>
    HBAR * popt.1 * Real.sqrt (EV2J / (ANGS2M ^ 2 * AMU2KG))

/-! ## Wavefunction overlap (`_compute_matel`). -/

/-- Embedding of `np.vdot`: sum of conjugate-linear products
`sum(conj(a_i) * b_i)`. -/
noncomputable def vdot (a b : List ℂ) : ℂ :=
  (List.zipWith (fun x y => (starRingEnd ℂ) x * y) a b).sum

/-- Embedding of `_compute_matel`: normalize both coefficient vectors by
`sqrt(|<psi|psi>|)` and return `np.abs(np.vdot(npsi0, npsi1))`. -/
noncomputable def _compute_matel (psi0 psi1 : List ℂ) : ℝ :=
  Complex.abs (vdot
    (psi0.map fun c => c / (Real.sqrt (Complex.abs (vdot psi0 psi0)) : ℂ))
    (psi1.map fun c => c / (Real.sqrt (Complex.abs (vdot psi1 psi1)) : ℂ)))

/-! ## numpy numerics used by the overlap engine. -/

/-- Embedding of `np.mean` over the first `N` slots of an array. -/
noncomputable def npMean (N : ℕ) (g : ℕ → ℝ) : ℝ :=
  (∑ k ∈ Finset.range N, g k) / N

/-- Embedding of `np.gradient(f, x)` for an array of length `N`: one-sided
first-order differences at the two edges, and numpy's second-order
three-point formula for non-uniform spacing at interior points. -/
noncomputable def npGradient (N : ℕ) (x f : ℕ → ℝ) (i : ℕ) : ℝ :=
  if i = 0 then (f 1 - f 0) / (x 1 - x 0)
  else if i = N - 1 then (f (N - 1) - f (N - 2)) / (x (N - 1) - x (N - 2))
  else
    (-(x (i + 1) - x i) / ((x i - x (i - 1)) * ((x i - x (i - 1)) + (x (i + 1) - x i)))) * f (i - 1)
    + (((x (i + 1) - x i) - (x i - x (i - 1))) / ((x i - x (i - 1)) * (x (i + 1) - x i))) * f i
    + ((x i - x (i - 1)) / ((x (i + 1) - x i) * ((x i - x (i - 1)) + (x (i + 1) - x i)))) * f (i + 1)

/-- Embedding of the slope `np.polyfit(x, y, 1)[0]` over the first `N` slots:
the least-squares slope `(N·Σxy - Σx·Σy) / (N·Σx² - (Σx)²)`. -/
noncomputable def npPolyfitSlope (N : ℕ) (x y : ℕ → ℝ) : ℝ :=
  ((N : ℝ) * (∑ k ∈ Finset.range N, x k * y k)
    - (∑ k ∈ Finset.range N, x k) * (∑ k ∈ Finset.range N, y k))
  / ((N : ℝ) * (∑ k ∈ Finset.range N, x k ^ 2) - (∑ k ∈ Finset.range N, x k) ^ 2)

/-- Embedding of `np.sign` on an exact sample coordinate. -/
noncomputable def npSign (q : ℚ) : ℝ :=
  if 0 < q then 1 else if q < 0 then -1 else 0

/-! ## Overlap engine, wavefunction variant (`get_Wif_from_wavecars`).

A `Wavecar` is an external data provider (pymatgen's WAVECAR reader): per
(spin, kpoint, band) a complex coefficient vector and a band-energy row whose
first component is the eigenvalue.  The reader stores the two spin channels
separately when `spin == 2` and jointly otherwise, which the code branches
on. -/

/-- External wavefunction source, as the code accesses it.  `coeffs2` and
`band_energy2` are the `spin == 2` layout (indexed spin, kpoint, band);
`coeffs1` and `band_energy1` the joint layout (indexed kpoint, band).  All
indices are 0-based as in the Python arrays. -/
structure Wavecar where
  spin : ℕ
  coeffs2 : ℕ → ℕ → ℕ → List ℂ
  coeffs1 : ℕ → ℕ → List ℂ
  band_energy2 : ℕ → ℕ → ℕ → List ℝ
  band_energy1 : ℕ → ℕ → List ℝ

/-- Coefficient-vector lookup with the code's spin-layout branch and its
1-based → 0-based index shifts. -/
def wavecarPsi (w : Wavecar) (spin kpoint band : ℕ) : List ℂ :=
  if w.spin = 2 then w.coeffs2 spin (kpoint - 1) (band - 1)
  else w.coeffs1 (kpoint - 1) (band - 1)

/-- Band-energy lookup `band_energy[...][band-1][0]` with the code's
spin-layout branch. -/
def wavecarEig (w : Wavecar) (spin kpoint band : ℕ) : ℝ :=
  (if w.spin = 2 then w.band_energy2 spin (kpoint - 1) (band - 1)
   else w.band_energy1 (kpoint - 1) (band - 1)).headI

/-- The `Q` array of `get_Wif_from_wavecars`: `np.zeros(Nw+1)` then
`Q[i] = q` for each enumerated sample; slot `Nw` is never assigned. -/
noncomputable def wcQ (wavecars : List (ℚ × Wavecar)) : ℕ → ℝ :=
  foldIdx (fun f i qw => upd f i ((qw.1 : ℚ) : ℝ)) (fun _ => 0) 0 wavecars

/-- The first loop of `get_Wif_from_wavecars` acting on
`matels = np.zeros((Nbi, Nw+1))`: row `i`, column `Nw` receives the `Q = 0`
overlap of the initial defect state with the initial bulk state `bi`. -/
noncomputable def wcMatelsInit (Nw : ℕ) (initial : Wavecar) (def_index : ℕ)
    (bulk_index : List ℕ) (spin kpoint : ℕ) : ℕ → ℕ → ℝ :=
  foldIdx (fun m i bi => upd2 m i Nw
      (_compute_matel (wavecarPsi initial spin kpoint def_index)
        (wavecarPsi initial spin kpoint bi)))
    (fun _ _ => 0) 0 bulk_index

/-- The second loop of `get_Wif_from_wavecars`: for each enumerated sample
`(i, (q, wavecar))` and each enumerated bulk band `(j, bi)`,
`matels[j, i] = _compute_matel(psi_i, psi_f)`. -/
noncomputable def wcMatels (wavecars : List (ℚ × Wavecar)) (initial : Wavecar)
    (def_index : ℕ) (bulk_index : List ℕ) (spin kpoint : ℕ) : ℕ → ℕ → ℝ :=
  foldIdx (fun m i qw =>
      foldIdx (fun m' j bi => upd2 m' j i
          (_compute_matel (wavecarPsi initial spin kpoint def_index)
            (wavecarPsi qw.2 spin kpoint bi)))
        m 0 bulk_index)
    (wcMatelsInit wavecars.length initial def_index bulk_index spin kpoint)
    0 wavecars

/-- The eigenvalue-difference array of `get_Wif_from_wavecars` before the
`np.abs`: `deig[i] = E(bulk bi) - E(defect)`, both rows read from the initial
WAVECAR at the given spin and kpoint. -/
noncomputable def wcDeig (initial : Wavecar) (def_index : ℕ)
    (bulk_index : List ℕ) (spin kpoint : ℕ) : ℕ → ℝ :=
  foldIdx (fun f i bi => upd f i
      (wavecarEig initial spin kpoint bi - wavecarEig initial spin kpoint def_index))
    (fun _ => 0) 0 bulk_index

/-- Embedding of `get_Wif_from_wavecars`: returns
`[(bi, deig[i] * np.mean(np.abs(np.gradient(matels[i, :], Q)))) for i, bi in enumerate(bulk_index)]`
with `deig = np.abs(deig)`. -/
noncomputable def get_Wif_from_wavecars (wavecars : List (ℚ × Wavecar))
    (initial : Wavecar) (def_index : ℕ) (bulk_index : List ℕ)
    (spin kpoint : ℕ) : List (ℕ × ℝ) :=
  pyEnumMap (fun i bi =>
      (bi, |wcDeig initial def_index bulk_index spin kpoint i| *
        npMean (wavecars.length + 1) (fun k =>
          |npGradient (wavecars.length + 1) (wcQ wavecars)
            (fun t => wcMatels wavecars initial def_index bulk_index spin kpoint i t) k|)))
    0 bulk_index

/-- Spec-side overlap-vs-Q series for one bulk band: the sampled overlaps
against the fixed initial defect state, with the implicit `Q = 0` anchor at
position `Nw` computed from the initial source as both initial and final
state. -/
noncomputable def specOverlapSeries (wavecars : List (ℚ × Wavecar))
    (initial : Wavecar) (def_index bi spin kpoint : ℕ) : ℕ → ℝ :=
  fun t =>
    if h : t < wavecars.length then
      _compute_matel (wavecarPsi initial spin kpoint def_index)
        (wavecarPsi (wavecars.get ⟨t, h⟩).2 spin kpoint bi)
    else if t = wavecars.length then
      _compute_matel (wavecarPsi initial spin kpoint def_index)
        (wavecarPsi initial spin kpoint bi)
    else 0

/-- Spec-side Q series: the sampled Q values followed by the implicit `Q = 0`
anchor. -/
noncomputable def specQSeries (wavecars : List (ℚ × Wavecar)) : ℕ → ℝ :=
  fun t => if h : t < wavecars.length then ((wavecars.get ⟨t, h⟩).1 : ℝ) else 0

/-- Spec-side per-band matrix element of the wavefunction variant:
`|eigenvalue difference| × mean(|numerical gradient of overlap vs Q|)` over
all `Nw + 1` points. -/
noncomputable def specWifWavecar (wavecars : List (ℚ × Wavecar))
    (initial : Wavecar) (def_index bi spin kpoint : ℕ) : ℝ :=
  |wavecarEig initial spin kpoint bi - wavecarEig initial spin kpoint def_index| *
    npMean (wavecars.length + 1) (fun k =>
      |npGradient (wavecars.length + 1) (specQSeries wavecars)
        (specOverlapSeries wavecars initial def_index bi spin kpoint) k|)

/-! ## Overlap engine, WSWQ variant (`get_Wif_from_WSWQ`).

For this component the parsed WSWQ file is the typed data the claim speaks
of: a table from (spin, kpoint) and (band i, band j) to a complex overlap.
The band-energy source is pymatgen's `BSVasprun` reader, modelled by its
`eigenvalues` field. -/

/-- A parsed WSWQ overlap table (the data extracted from one WSWQ file). -/
abbrev WSWQTable := ℕ × ℕ → ℕ × ℕ → ℂ

/-- The two spin channels of the eigenvalue dictionary (`Spin.up`/`Spin.down`). -/
inductive SpinCh where
  | up : SpinCh
  | down : SpinCh
  deriving DecidableEq

/-- External band-energy source: `bvr.eigenvalues[sp][kpoint-1][band-1]` is a
row whose first component is the eigenvalue. -/
structure BSVasprun where
  eigenvalues : SpinCh → ℕ → ℕ → List ℝ

/-- The `Q` array of `get_Wif_from_WSWQ`: `np.zeros(Nw+1)` with
`Q[i] = q` for each enumerated sample; slot `Nw` is never assigned. -/
noncomputable def wswqQ (wswqs : List (ℚ × WSWQTable)) : ℕ → ℝ :=
  foldIdx (fun f i s => upd f i ((s.1 : ℚ) : ℝ)) (fun _ => 0) 0 wswqs

/-- The overlap matrix of `get_Wif_from_WSWQ`: `np.zeros((Nbi, Nw+1))` with
`matels[j, i] = np.sign(q) * np.abs(wswq[(spin+1, kpoint)][(bi, def_index)])`
for each enumerated sample `i` and band row `j`; column `Nw` is never
assigned. -/
noncomputable def wswqMatels (wswqs : List (ℚ × WSWQTable)) (def_index : ℕ)
    (bulk_index : List ℕ) (spin kpoint : ℕ) : ℕ → ℕ → ℝ :=
  foldIdx (fun m i s =>
      foldIdx (fun m' j bi => upd2 m' j i
          (npSign s.1 * Complex.abs (s.2 (spin + 1, kpoint) (bi, def_index))))
        m 0 bulk_index)
    (fun _ _ => 0) 0 wswqs

/-- The eigenvalue array of `get_Wif_from_WSWQ` before the `np.abs`:
`deig[i] = bvr.eigenvalues[sp][kpoint-1][bi-1][0]` with `sp` selected from
the spin argument. -/
noncomputable def wswqDeig (bvr : BSVasprun) (bulk_index : List ℕ)
    (spin kpoint : ℕ) : ℕ → ℝ :=
  foldIdx (fun f i bi => upd f i
      ((bvr.eigenvalues (if spin = 0 then .up else .down) (kpoint - 1) (bi - 1)).headI))
    (fun _ => 0) 0 bulk_index

/-- Embedding of `get_Wif_from_WSWQ`: returns
`[(bi, deig[i] * np.polyfit(Q, matels[i, :], 1)[0]) for i, bi in enumerate(bulk_index)]`
with `deig = np.abs(deig)`. -/
noncomputable def get_Wif_from_WSWQ (wswqs : List (ℚ × WSWQTable))
    (bvr : BSVasprun) (def_index : ℕ) (bulk_index : List ℕ)
    (spin kpoint : ℕ) : List (ℕ × ℝ) :=
  pyEnumMap (fun i bi =>
      (bi, |wswqDeig bvr bulk_index spin kpoint i| *
        npPolyfitSlope (wswqs.length + 1) (wswqQ wswqs)
          (fun t => wswqMatels wswqs def_index bulk_index spin kpoint i t)))
    0 bulk_index

/-- Spec-side per-sample overlap entry of the WSWQ variant: sign(Q) times the
magnitude of the table entry under key (spin+1, kpoint) and band pair
(bulk band, defect band). -/
noncomputable def specOverlapWSWQ (s : ℚ × WSWQTable) (def_index bi spin kpoint : ℕ) : ℝ :=
  npSign s.1 * Complex.abs (s.2 (spin + 1, kpoint) (bi, def_index))

/-- Spec-side eigenvalue reference of the WSWQ variant: the absolute band
eigenvalue (first eigenvalue component at the given kpoint) from the initial
band-energy source. -/
noncomputable def specEigWSWQ (bvr : BSVasprun) (bi spin kpoint : ℕ) : ℝ :=
  |(bvr.eigenvalues (if spin = 0 then .up else .down) (kpoint - 1) (bi - 1)).headI|

/-- Spec-side per-band matrix element of the WSWQ variant, with the overlap
series taken over the `Nw` provided samples together with the implicit
`(Q = 0, overlap = 0)` anchor slot. -/
noncomputable def specWifWSWQ (wswqs : List (ℚ × WSWQTable)) (bvr : BSVasprun)
    (def_index bi spin kpoint : ℕ) : ℝ :=
  specEigWSWQ bvr bi spin kpoint *
    npPolyfitSlope (wswqs.length + 1)
      (fun t => if h : t < wswqs.length then ((wswqs.get ⟨t, h⟩).1 : ℝ) else 0)
      (fun t => if h : t < wswqs.length
        then specOverlapWSWQ (wswqs.get ⟨t, h⟩) def_index bi spin kpoint else 0)

/-- The claim's literal per-band matrix element of the WSWQ variant: the
linear fit taken over the `Nw` provided samples only (no anchor slot). -/
noncomputable def specWifWSWQSamplesOnly (wswqs : List (ℚ × WSWQTable))
    (bvr : BSVasprun) (def_index bi spin kpoint : ℕ) : ℝ :=
  specEigWSWQ bvr bi spin kpoint *
    npPolyfitSlope wswqs.length
      (fun t => if h : t < wswqs.length then ((wswqs.get ⟨t, h⟩).1 : ℝ) else 0)
      (fun t => if h : t < wswqs.length
        then specOverlapWSWQ (wswqs.get ⟨t, h⟩) def_index bi spin kpoint else 0)

/-! ## WSWQ parser (`_read_WSWQ`).

The two regular expressions
`\s*spin=(\d+), kpoint=\s*(\d+)` and
`i=\s*(\d+), j=\s*(\d+)\s*:\s*([0-9\-.]+)\s+([0-9\-.]+)`
are searched in every line.  Both patterns alternate literal fragments with
character classes that are disjoint from their successors, so `re.search`
on them is equivalent to attempting, at each start position from the left,
a greedy match without backtracking — which is what the matchers below do.
The complex value `complex(float(g3), float(g4))` is kept as its exact
(re, im) rational components. -/

/-- Python's `\s` whitespace class. -/
def isPySpace (c : Char) : Bool :=
  c = ' ' || c = '\t' || c = '\n' || c = '\r' || c = '\x0b' || c = '\x0c'

/-- Decimal digit test for the `\d` class. -/
def isDigitCh (c : Char) : Bool := '0' ≤ c && c ≤ '9'

/-- Membership in the `[0-9\-.]` class of the data pattern. -/
def isNumTokCh (c : Char) : Bool := isDigitCh c || c = '-' || c = '.'

/-- Greedy `\s*`. -/
def dropPySpace : List Char → List Char
  | c :: cs => if isPySpace c then dropPySpace cs else c :: cs
  | [] => []

/-- Greedy maximal run of characters satisfying `p`. -/
def spanTok (p : Char → Bool) : List Char → List Char × List Char
  | [] => ([], [])
  | c :: cs =>
    if p c then
      let (t, r) := spanTok p cs
      (c :: t, r)
    else ([], c :: cs)

/-- Numeric value of a digit run. -/
def digitsToNat : List Char → ℕ → ℕ
  | [], acc => acc
  | c :: cs, acc => digitsToNat cs (acc * 10 + (c.toNat - '0'.toNat))

/-- Greedy `\d+`: at least one digit, maximal run, with its value. -/
def matchDigits (cs : List Char) : Option (ℕ × List Char) :=
  let (t, r) := spanTok isDigitCh cs
  if t.isEmpty then none else some (digitsToNat t 0, r)

/-- Match a literal fragment of the pattern. -/
def matchLit : List Char → List Char → Option (List Char)
  | [], cs => some cs
  | _ :: _, [] => none
  | l :: ls, c :: cs => if c = l then matchLit ls cs else none

/-- Greedy `[0-9\-.]+`: at least one class character, maximal run. -/
def matchNumTok (cs : List Char) : Option (List Char × List Char) :=
  let (t, r) := spanTok isNumTokCh cs
  if t.isEmpty then none else some (t, r)

/-- Greedy `\s+`: at least one whitespace character. -/
def matchSpace1 (cs : List Char) : Option (List Char) :=
  match cs with
  | c :: rest => if isPySpace c then some (dropPySpace rest) else none
  | [] => none

/-- `float()` applied to a token drawn from the `[0-9\-.]` class: an optional
leading minus sign, then digits with at most one decimal point and at least
one digit.  `none` models the `ValueError` Python would raise. -/
def pyFloat (cs : List Char) : Option ℚ :=
  let (neg, body) := match cs with
    | '-' :: rest => (true, rest)
    | _ => (false, cs)
  let (ip, r1) := spanTok isDigitCh body
  let signed : ℚ → ℚ := fun q => if neg then -q else q
  match r1 with
  | [] => if ip.isEmpty then none else some (signed (digitsToNat ip 0 : ℚ))
  | '.' :: r2 =>
    let (fp, r3) := spanTok isDigitCh r2
    if ¬ r3.isEmpty then none
    else if ip.isEmpty && fp.isEmpty then none
    else some (signed ((digitsToNat ip 0 : ℚ) + (digitsToNat fp 0 : ℚ) / 10 ^ fp.length))
  | _ => none

/-- Attempt the section-marker pattern at one start position:
`spin=(\d+), kpoint=\s*(\d+)` (the leading `\s*` matches empty at a search
position). -/
def matchMarkerAt (cs : List Char) : Option (ℕ × ℕ) := do
  let r1 ← matchLit "spin=".toList cs
  let (s, r2) ← matchDigits r1
  let r3 ← matchLit ", kpoint=".toList r2
  let (k, r4) ← matchDigits (dropPySpace r3)
  let _ := r4
  pure (s, k)

/-- Attempt the data pattern at one start position:
`i=\s*(\d+), j=\s*(\d+)\s*:\s*([0-9\-.]+)\s+([0-9\-.]+)`. -/
def matchDataAt (cs : List Char) : Option (ℕ × ℕ × List Char × List Char) := do
  let r1 ← matchLit "i=".toList cs
  let (i, r2) ← matchDigits (dropPySpace r1)
  let r3 ← matchLit ", j=".toList r2
  let (j, r4) ← matchDigits (dropPySpace r3)
  let r5 ← matchLit ":".toList (dropPySpace r4)
  let (t1, r6) ← matchNumTok (dropPySpace r5)
  let r7 ← matchSpace1 r6
  let (t2, _) ← matchNumTok r7
  pure (i, j, t1, t2)

/-- `re.search`: try the matcher at each start position, leftmost first. -/
def searchIn (f : List Char → Option α) : List Char → Option α
  | [] => f []
  | c :: cs =>
    match f (c :: cs) with
    | some r => some r
    | none => searchIn f cs

/-- Classification of one WSWQ line, mirroring the
`if spin_kpoint: ... elif data: ...` branch order (a line matching both
patterns counts as a section marker). -/
inductive WSWQLine where
  | marker : ℕ → ℕ → WSWQLine
  | data : ℕ → ℕ → ℚ → ℚ → WSWQLine
  | badfloat : WSWQLine
  | other : WSWQLine
  deriving DecidableEq

/-- Classify one line of a WSWQ file. -/
def classifyLine (s : String) : WSWQLine :=
  match searchIn matchMarkerAt s.toList with
  | some (sp, kp) => .marker sp kp
  | none =>
    match searchIn matchDataAt s.toList with
    | some (i, j, t1, t2) =>
      match pyFloat t1, pyFloat t2 with
      | some re, some im => .data i j re im
      | _, _ => .badfloat
    | none => .other

/-- Association-list update with Python dict semantics: replace an existing
key in place, else append. -/
def dictSet [DecidableEq κ] (m : List (κ × β)) (k : κ) (v : β) : List (κ × β) :=
  if (m.filter (fun p => decide (p.1 = k))).isEmpty then m ++ [(k, v)]
  else m.map (fun p => if p.1 = k then (k, v) else p)

/-- Association-list lookup. -/
def dictGet [DecidableEq κ] : List (κ × β) → κ → Option β
  | [], _ => none
  | p :: ps, k => if p.1 = k then some p.2 else dictGet ps k

/-- The parsed WSWQ dictionary: (spin, kpoint) ↦ (band i, band j) ↦ complex
value kept as exact (re, im) components. -/
abbrev WSWQDict := List ((ℕ × ℕ) × List ((ℕ × ℕ) × (ℚ × ℚ)))

/-- One step of the `_read_WSWQ` scan: `current` is the mutable active
(spin, kpoint) context.  A marker line sets it and installs a fresh empty
mapping; a data line writes into the mapping of the active context and is a
`KeyError` when no context is active; an unparseable float is a `ValueError`;
anything else is skipped. -/
def wswqStep (st : Option (ℕ × ℕ) × WSWQDict) (line : String) :
    Except String (Option (ℕ × ℕ) × WSWQDict) :=
  match classifyLine line with
  | .marker s k => .ok (some (s, k), dictSet st.2 (s, k) [])
  | .data i j re im =>
    match st.1 with
    | none => .error "KeyError: None"
    | some cur =>
      match dictGet st.2 cur with
      | none => .error "KeyError"
      | some inner => .ok (st.1, dictSet st.2 cur (dictSet inner (i, j) (re, im)))
  | .badfloat => .error "ValueError: could not convert string to float"
  | .other => .ok st

/-- Run the scan over all lines. -/
def wswqRun : Option (ℕ × ℕ) × WSWQDict → List String →
    Except String (Option (ℕ × ℕ) × WSWQDict)
  | st, [] => .ok st
  | st, l :: ls =>
    match wswqStep st l with
    | .error e => .error e
    | .ok st' => wswqRun st' ls

/-- Embedding of `_read_WSWQ`: scan the lines of the file starting with no
active context and an empty dictionary. -/
def _read_WSWQ (lines : List String) : Except String WSWQDict :=
  (wswqRun (none, []) lines).map (·.2)

/-- Decidable equality for `Except` results, used to evaluate the parser on
concrete inputs. -/
def exceptDecEq [DecidableEq ε] [DecidableEq α] : DecidableEq (Except ε α)
  | .error a, .error b =>
    if h : a = b then .isTrue (by rw [h]) else .isFalse (by intro hc; cases hc; exact h rfl)
  | .error _, .ok _ => .isFalse (by intro hc; cases hc)
  | .ok _, .error _ => .isFalse (by intro hc; cases hc)
  | .ok a, .ok b =>
    if h : a = b then .isTrue (by rw [h]) else .isFalse (by intro hc; cases hc; exact h rfl)

instance : DecidableEq (Except String WSWQDict) := exceptDecEq

/-! ## Default elements and concrete fixtures used by witnesses and
counterexamples. -/

instance : Inhabited Site := ⟨⟨0, 0, 0, 0⟩⟩

instance : Inhabited Struct := ⟨⟨[]⟩⟩

instance : Inhabited Wavecar := ⟨⟨0, fun _ _ _ => [], fun _ _ => [], fun _ _ _ => [], fun _ _ => []⟩⟩

/-- Spec-side list of displacements after zero removal. -/
def displacementsAfterZeroRemoval (d : List ℚ) (rz : Bool) : List ℚ :=
  if rz then d.filter (fun q => decide (q ≠ 0)) else d

/-- A one-site ground structure used by witnesses. -/
def wStructG : Struct := ⟨[⟨1, 0, 0, 0⟩]⟩

/-- A one-site excited structure used by witnesses: the site moved by 1 Å
along x. -/
def wStructE : Struct := ⟨[⟨1, 1, 0, 0⟩]⟩

/-- A wavefunction source used by witnesses: one joint-spin channel with a
single plane-wave coefficient and unit band energies. -/
def wWavecar : Wavecar :=
  ⟨1, fun _ _ _ => [1], fun _ _ => [1], fun _ _ _ => [1], fun _ _ => [1]⟩

/-- The PES sample abscissas of the end-to-end harmonic-fit scenario. -/
noncomputable def c4Q : List ℝ := [-0.2, -0.1, 0, 0.1, 0.2]

/-- The PES sample energies `0.5 * 2² * Q²` of the harmonic-fit scenario. -/
noncomputable def c4E : List ℝ := [0.08, 0.02, 0, 0.02, 0.08]

/-- An optimizer returning the exact parameters of the scenario PES. -/
def c4Oracle : FitOracle := fun _ _ _ => .ok (2, 0, 0)

/-- An optimizer returning the stationary point `(1, 1, 1)` at which the
default-start Levenberg-Marquardt iteration of the degenerate all-equal-Q
sample set `Q = [1,1,1]`, `E = [0,1,2]` terminates: there the model predicts
`0.5*1²*(1-1)² + 1 = 1` at every sample, which is the least-squares-optimal
constant, so the cost gradient vanishes at the starting guess itself. -/
def c5Oracle : FitOracle := fun _ _ _ => .ok (1, 1, 1)

/-- A WSWQ overlap table whose every entry is 1, used by the counterexample. -/
noncomputable def cexTable : WSWQTable := fun _ _ => 1

/-- A band-energy source whose every eigenvalue row is `[1]`. -/
def cexBvr : BSVasprun := ⟨fun _ _ _ => [1]⟩

/-- Two samples at `Q = 1` and `Q = 2`, both with unit overlaps. -/
noncomputable def cexSamples : List (ℚ × WSWQTable) := [(1, cexTable), (2, cexTable)]

/-! ## Array-lookup lemmas for the fold embeddings. -/

theorem foldIdx_upd (g : ℕ → α → ℝ) (d : α) :
    ∀ (l : List α) (f0 : ℕ → ℝ) (n j : ℕ),
      foldIdx (fun f i a => upd f i (g i a)) f0 n l j =
        if n ≤ j ∧ j < n + l.length then g j (l.getD (j - n) d) else f0 j := by
  intro l
  induction l with
  | nil =>
    intro f0 n j
    rw [foldIdx]
    simp only [List.length_nil, Nat.add_zero]
    rw [if_neg (by omega)]
  | cons a as ih =>
    intro f0 n j
    rw [foldIdx, ih]
    simp only [List.length_cons]
    by_cases h1 : n + 1 ≤ j ∧ j < n + 1 + as.length
    · obtain ⟨ha, hb⟩ := h1
      rw [if_pos ⟨ha, hb⟩, if_pos ⟨by omega, by omega⟩]
      have hj : j - n = (j - (n + 1)) + 1 := by omega
      rw [hj]
      simp [List.getD]
    · rw [if_neg h1]
      by_cases h2 : j = n
      · subst h2
        simp only [upd]
        rw [if_pos trivial, if_pos (show j ≤ j ∧ j < j + (as.length + 1) from ⟨le_rfl, by omega⟩)]
        simp [List.getD]
      · rw [upd, if_neg h2, if_neg (by omega)]

theorem foldIdx_upd2_col (g : ℕ → α → ℝ) (d : α) (i : ℕ) :
    ∀ (l : List α) (m0 : ℕ → ℕ → ℝ) (n r k : ℕ),
      foldIdx (fun m j a => upd2 m j i (g j a)) m0 n l r k =
        if k = i ∧ n ≤ r ∧ r < n + l.length then g r (l.getD (r - n) d) else m0 r k := by
  intro l
  induction l with
  | nil =>
    intro m0 n r k
    rw [foldIdx]
    simp only [List.length_nil, Nat.add_zero]
    rw [if_neg (by omega)]
  | cons a as ih =>
    intro m0 n r k
    rw [foldIdx, ih]
    simp only [List.length_cons]
    by_cases h1 : k = i ∧ n + 1 ≤ r ∧ r < n + 1 + as.length
    · obtain ⟨hki, ha, hb⟩ := h1
      rw [if_pos ⟨hki, ha, hb⟩, if_pos ⟨hki, by omega, by omega⟩]
      have hr : r - n = (r - (n + 1)) + 1 := by omega
      rw [hr]
      simp [List.getD]
    · rw [if_neg h1]
      by_cases h2 : r = n ∧ k = i
      · obtain ⟨hrn, hki⟩ := h2
        have hc1 : r = n ∧ k = i := ⟨hrn, hki⟩
        have hc2 : k = i ∧ n ≤ r ∧ r < n + (as.length + 1) := ⟨hki, by omega, by omega⟩
        simp only [upd2]
        rw [if_pos hc1, if_pos hc2]
        subst hrn
        simp [List.getD]
      · simp only [upd2, if_neg (fun hc : r = n ∧ k = i => h2 hc)]
        rw [if_neg]
        intro hc
        rcases hc with ⟨hki, hnr, hrlt⟩
        have hrn : r = n := by
          by_contra hne
          exact h1 ⟨hki, by omega, by omega⟩
        exact h2 ⟨hrn, hki⟩


theorem zipWith_sum_q (f : Site → Site → ℚ) :
    ∀ (a b : List Site), a.length = b.length →
      (List.zipWith f a b).sum =
        ∑ i ∈ Finset.range a.length, f (a.getD i default) (b.getD i default) := by
  intro a
  induction a with
  | nil => intro b _; simp
  | cons x xs ih =>
    intro b hb
    cases b with
    | nil => simp at hb
    | cons y ys =>
      simp only [List.zipWith_cons_cons, List.sum_cons, List.length_cons,
        Finset.sum_range_succ']
      rw [ih ys (by simpa using hb)]
      simp [add_comm]

/-- C7: `get_dQ` returns the square root of the sum over sites of the site
mass times the squared ground-to-excited distance, and `get_dQ A A = 0` for
every structure `A`. -/
theorem claim7_get_dQ (g e A : Struct) (hcompat : g.sites.length = e.sites.length) :
    get_dQ g e = Real.sqrt ((∑ i ∈ Finset.range g.sites.length,
      (g.sites.getD i default).mass *
        distSq (g.sites.getD i default) (e.sites.getD i default) : ℚ)) ∧
    get_dQ A A = 0 := by
  constructor
  · rw [get_dQ, zipWith_sum_q (fun a b => distSq a b * a.mass) g.sites e.sites hcompat]
    congr 2
    exact Finset.sum_congr rfl (fun i _ => mul_comm _ _)
  · rw [get_dQ]
    have h0 : (List.zipWith (fun a b => distSq a b * a.mass) A.sites A.sites).sum = 0 := by
      induction A.sites with
      | nil => simp
      | cons a as ih => simp [distSq, ih]
    rw [h0]
    simp

/-- Witness for C7 at a concrete pair of one-site structures. -/
theorem claim7_get_dQ_witness :
    wStructG.sites.length = wStructE.sites.length ∧
    (get_dQ wStructG wStructE = Real.sqrt ((∑ i ∈ Finset.range wStructG.sites.length,
      (wStructG.sites.getD i default).mass *
        distSq (wStructG.sites.getD i default) (wStructE.sites.getD i default) : ℚ)) ∧
    get_dQ wStructE wStructE = 0) :=
  ⟨rfl, claim7_get_dQ wStructG wStructE wStructE rfl⟩

/-- C10: `get_cc_structures` returns two lists whose lengths equal the number
of displacements remaining after zero removal; with `remove_zero` exactly the
displacements equal to 0 are dropped; the ground-side family interpolates at
each displacement and the excited-side family at each displacement plus 1. -/
theorem claim10_get_cc_structures (g e : Struct) (d : List ℚ) (rz : Bool)
    (q : ℚ) (k : ℕ) :
    (get_cc_structures g e d rz).1.length = (displacementsAfterZeroRemoval d rz).length ∧
    (get_cc_structures g e d rz).2.length = (displacementsAfterZeroRemoval d rz).length ∧
    (rz = true → (q ∈ displacementsAfterZeroRemoval d rz ↔ q ∈ d ∧ q ≠ 0)) ∧
    (k < (displacementsAfterZeroRemoval d rz).length →
      (get_cc_structures g e d rz).1.getD k default =
        interpolateAt g e ((displacementsAfterZeroRemoval d rz).getD k 0) ∧
      (get_cc_structures g e d rz).2.getD k default =
        interpolateAt g e ((displacementsAfterZeroRemoval d rz).getD k 0 + 1)) := by
  refine ⟨?_, ?_, ?_, ?_⟩
  · simp [get_cc_structures, displacementsAfterZeroRemoval]
  · simp [get_cc_structures, displacementsAfterZeroRemoval]
  · intro hrz
    subst hrz
    simp [displacementsAfterZeroRemoval, List.mem_filter]
  · intro hk
    have h1 : (get_cc_structures g e d rz).1 =
        (displacementsAfterZeroRemoval d rz).map (fun x => interpolateAt g e x) := by
      simp [get_cc_structures, displacementsAfterZeroRemoval]
    have h2 : (get_cc_structures g e d rz).2 =
        (displacementsAfterZeroRemoval d rz).map (fun x => interpolateAt g e (x + 1)) := by
      simp [get_cc_structures, displacementsAfterZeroRemoval]
    constructor
    · rw [h1, List.getD_eq_getElem _ _ (by simpa using hk), List.getElem_map,
        List.getD_eq_getElem _ _ hk]
    · rw [h2, List.getD_eq_getElem _ _ (by simpa using hk), List.getElem_map,
        List.getD_eq_getElem _ _ hk]

/-- Witness for C10 at concrete structures and displacement list `[0, 1/2]`. -/
theorem claim10_get_cc_structures_witness :
    (0 : ℕ) < (displacementsAfterZeroRemoval [0, 1/2] true).length ∧
    (get_cc_structures wStructG wStructE [0, 1/2] true).1.getD 0 default =
      interpolateAt wStructG wStructE ((displacementsAfterZeroRemoval [0, 1/2] true).getD 0 0) ∧
    (get_cc_structures wStructG wStructE [0, 1/2] true).2.getD 0 default =
      interpolateAt wStructG wStructE ((displacementsAfterZeroRemoval [0, 1/2] true).getD 0 0 + 1) :=
  ⟨by norm_num [displacementsAfterZeroRemoval],
   (claim10_get_cc_structures wStructG wStructE [0, 1/2] true 0 0).2.2.2
     (by norm_num [displacementsAfterZeroRemoval])⟩

theorem vdot_cons (x y : ℂ) (xs ys : List ℂ) :
    vdot (x :: xs) (y :: ys) = (starRingEnd ℂ) x * y + vdot xs ys := by
  simp [vdot]

theorem vdot_map_mul_left (c : ℂ) :
    ∀ (a b : List ℂ), vdot (a.map (fun x => c * x)) b = (starRingEnd ℂ) c * vdot a b := by
  intro a
  induction a with
  | nil => intro b; simp [vdot]
  | cons x xs ih =>
    intro b
    cases b with
    | nil => simp [vdot]
    | cons y ys =>
      rw [List.map_cons, vdot_cons, vdot_cons, ih, map_mul]
      ring

theorem vdot_map_mul_right (c : ℂ) :
    ∀ (a b : List ℂ), vdot a (b.map (fun x => c * x)) = c * vdot a b := by
  intro a
  induction a with
  | nil => intro b; simp [vdot]
  | cons x xs ih =>
    intro b
    cases b with
    | nil => simp [vdot]
    | cons y ys =>
      rw [List.map_cons, vdot_cons, vdot_cons, ih]
      ring

theorem vdot_self_eq_sum_normSq (v : List ℂ) :
    vdot v v = ((v.map Complex.normSq).sum : ℝ) := by
  induction v with
  | nil => simp [vdot]
  | cons x xs ih =>
    rw [vdot_cons, ih, List.map_cons, List.sum_cons]
    push_cast
    rw [mul_comm ((starRingEnd ℂ) x) x, Complex.mul_conj]

theorem vdot_self_ne_zero (v : List ℂ) (hv : ∃ x ∈ v, x ≠ 0) : vdot v v ≠ 0 := by
  rw [vdot_self_eq_sum_normSq]
  have hpos : 0 < (v.map Complex.normSq).sum := by
    obtain ⟨x, hmem, hx⟩ := hv
    induction v with
    | nil => simp at hmem
    | cons a as ih =>
      rcases List.mem_cons.mp hmem with h | h
      · subst h
        have ha : 0 < Complex.normSq x := Complex.normSq_pos.mpr hx
        have hrest : 0 ≤ (as.map Complex.normSq).sum :=
          List.sum_nonneg (by
            intro y hy
            obtain ⟨z, _, hz⟩ := List.mem_map.mp hy
            rw [← hz]
            exact Complex.normSq_nonneg z)
        simpa using add_pos_of_pos_of_nonneg ha hrest
      · have := ih h
        have ha : 0 ≤ Complex.normSq a := Complex.normSq_nonneg a
        simpa using add_pos_of_nonneg_of_pos ha this
  simpa using ne_of_gt hpos

theorem matel_eq_div (a b : List ℂ) :
    _compute_matel a b = Complex.abs (vdot a b) /
      (Real.sqrt (Complex.abs (vdot a a)) * Real.sqrt (Complex.abs (vdot b b))) := by
  rw [_compute_matel]
  have hfa : (fun c : ℂ => c / (Real.sqrt (Complex.abs (vdot a a)) : ℂ)) =
      (fun c : ℂ => ((Real.sqrt (Complex.abs (vdot a a)) : ℂ))⁻¹ * c) := by
    funext c
    rw [div_eq_mul_inv, mul_comm]
  have hfb : (fun c : ℂ => c / (Real.sqrt (Complex.abs (vdot b b)) : ℂ)) =
      (fun c : ℂ => ((Real.sqrt (Complex.abs (vdot b b)) : ℂ))⁻¹ * c) := by
    funext c
    rw [div_eq_mul_inv, mul_comm]
  rw [hfa, hfb, vdot_map_mul_left, vdot_map_mul_right]
  rw [map_mul, map_mul, Complex.abs_conj, map_inv₀, map_inv₀,
    Complex.abs_ofReal, Complex.abs_ofReal,
    abs_of_nonneg (Real.sqrt_nonneg _), abs_of_nonneg (Real.sqrt_nonneg _),
    div_eq_mul_inv, mul_inv]
  ring

theorem matel_self_eq_one (v : List ℂ) (hv : vdot v v ≠ 0) : _compute_matel v v = 1 := by
  rw [matel_eq_div]
  have habs : Complex.abs (vdot v v) ≠ 0 := Complex.abs.ne_zero hv
  rw [Real.mul_self_sqrt (Complex.abs.nonneg _)]
  exact div_self habs

theorem matel_smul_left (c : ℂ) (hc : c ≠ 0) (a b : List ℂ) :
    _compute_matel (a.map (fun x => c * x)) b = _compute_matel a b := by
  rw [matel_eq_div, matel_eq_div, vdot_map_mul_left, vdot_map_mul_left, vdot_map_mul_right]
  rw [map_mul, Complex.abs_conj]
  rw [show (starRingEnd ℂ) c * (c * vdot a a) = ((Complex.normSq c : ℝ) : ℂ) * vdot a a by
    rw [← mul_assoc, mul_comm ((starRingEnd ℂ) c) c, Complex.mul_conj]]
  rw [map_mul, Complex.abs_ofReal, abs_of_nonneg (Complex.normSq_nonneg c),
    Real.sqrt_mul (Complex.normSq_nonneg c), ← Complex.abs_apply, mul_assoc]
  exact mul_div_mul_left _ _ (Complex.abs.ne_zero hc)

theorem matel_smul_right (c : ℂ) (hc : c ≠ 0) (a b : List ℂ) :
    _compute_matel a (b.map (fun x => c * x)) = _compute_matel a b := by
  rw [matel_eq_div, matel_eq_div, vdot_map_mul_right, vdot_map_mul_left, vdot_map_mul_right]
  rw [map_mul]
  rw [show (starRingEnd ℂ) c * (c * vdot b b) = ((Complex.normSq c : ℝ) : ℂ) * vdot b b by
    rw [← mul_assoc, mul_comm ((starRingEnd ℂ) c) c, Complex.mul_conj]]
  rw [map_mul, Complex.abs_ofReal, abs_of_nonneg (Complex.normSq_nonneg c),
    Real.sqrt_mul (Complex.normSq_nonneg c), ← Complex.abs_apply]
  rw [show Real.sqrt (Complex.abs (vdot a a)) *
      (Complex.abs c * Real.sqrt (Complex.abs (vdot b b))) =
      Complex.abs c * (Real.sqrt (Complex.abs (vdot a a)) *
        Real.sqrt (Complex.abs (vdot b b))) by ring]
  rw [mul_comm (Complex.abs c) (Complex.abs (vdot a b))]
  rw [show Complex.abs (vdot a b) * Complex.abs c = Complex.abs c * Complex.abs (vdot a b) by ring]
  exact mul_div_mul_left _ _ (Complex.abs.ne_zero hc)

/-- C9: `_compute_matel` is scale-invariant in either argument under any
nonzero complex scaling, and equals 1 on identical nonzero vectors. -/
theorem claim9_compute_matel_scale_invariance (psi0 psi1 v : List ℂ) (c : ℂ)
    (hc : c ≠ 0) (h0 : ∃ x ∈ psi0, x ≠ 0) (h1 : ∃ x ∈ psi1, x ≠ 0)
    (hv : ∃ x ∈ v, x ≠ 0) :
    _compute_matel (psi0.map (fun x => c * x)) psi1 = _compute_matel psi0 psi1 ∧
    _compute_matel psi0 (psi1.map (fun x => c * x)) = _compute_matel psi0 psi1 ∧
    _compute_matel v v = 1 := by
  refine ⟨matel_smul_left c hc psi0 psi1, matel_smul_right c hc psi0 psi1, ?_⟩
  exact matel_self_eq_one v (vdot_self_ne_zero v hv)

/-- Witness for C9 at concrete one-entry vectors and scaling constant 2. -/
theorem claim9_compute_matel_witness :
    _compute_matel ([1].map (fun x => (2 : ℂ) * x)) [Complex.I] =
      _compute_matel [1] [Complex.I] ∧
    _compute_matel [1] ([Complex.I].map (fun x => (2 : ℂ) * x)) =
      _compute_matel [1] [Complex.I] ∧
    _compute_matel [(1 : ℂ)] [(1 : ℂ)] = 1 :=
  claim9_compute_matel_scale_invariance [1] [Complex.I] [1] 2 (by norm_num)
    ⟨1, by simp⟩ ⟨Complex.I, by simp [Complex.I_ne_zero]⟩ ⟨1, by simp⟩

theorem harmonic_exact_fit_recovery (a b c : ℝ)
    (hm1 : fmodel a b c (-0.1) = 0.02) (h0 : fmodel a b c 0 = 0)
    (h1 : fmodel a b c 0.1 = 0.02) (ha : 0 ≤ a) :
    a = 2 ∧ b = 0 ∧ c = 0 := by
  simp only [fmodel] at hm1 h0 h1
  have ha2 : a ^ 2 = 4 := by linear_combination 100 * h1 + 100 * hm1 - 200 * h0
  have hab : a ^ 2 * b = 0 := by linear_combination (-5 : ℝ) * h1 + 5 * hm1
  have hb : b = 0 := by
    have h4 : (4 : ℝ) * b = 0 := by rw [← ha2]; exact hab
    linarith
  have hc : c = 0 := by
    rw [hb] at h0
    norm_num at h0
    linarith
  have haa : a = 2 := by
    have hfact : (a - 2) * (a + 2) = 0 := by linear_combination ha2
    rcases mul_eq_zero.mp hfact with h | h
    · linarith
    · linarith
  exact ⟨haa, hb, hc⟩

/-- C4: `get_omega_from_PES` returns `HBAR * omega * sqrt(EV2J / (ANGS2M² * AMU2KG))`
for the fitted `omega`; and on the noise-free scenario `Q = [-0.2,-0.1,0,0.1,0.2]`,
`E = 0.5·2²·Q²`, an optimizer result that fits the samples exactly (with the
physical nonnegative-omega branch) is exactly `(2, 0, 0)`, so the returned
phonon energy is `HBAR·2·sqrt(EV2J/(ANGS2M²·AMU2KG))`, with `Q0` free or
pinned to its true value 0. -/
theorem claim4_get_omega_from_PES (oracle : FitOracle) (Q E : List ℝ)
    (pin : Option ℝ) (p q0 q1 : FitParams) :
    (curve_fit oracle Q E pin = .ok p →
      get_omega_from_PES oracle Q E pin =
        .ok (HBAR * p.1 * Real.sqrt (EV2J / (ANGS2M ^ 2 * AMU2KG)))) ∧
    (oracle c4Q c4E none = .ok q0 →
      fmodel q0.1 q0.2.1 q0.2.2 (-0.2) = 0.08 →
      fmodel q0.1 q0.2.1 q0.2.2 (-0.1) = 0.02 →
      fmodel q0.1 q0.2.1 q0.2.2 0 = 0 →
      fmodel q0.1 q0.2.1 q0.2.2 0.1 = 0.02 →
      fmodel q0.1 q0.2.1 q0.2.2 0.2 = 0.08 →
      0 ≤ q0.1 →
      q0 = (2, 0, 0) ∧
        get_omega_from_PES oracle c4Q c4E none =
          .ok (HBAR * 2 * Real.sqrt (EV2J / (ANGS2M ^ 2 * AMU2KG)))) ∧
    (oracle c4Q c4E (some 0) = .ok q1 →
      fmodel q1.1 q1.2.1 q1.2.2 (-0.1) = 0.02 →
      fmodel q1.1 q1.2.1 q1.2.2 0 = 0 →
      fmodel q1.1 q1.2.1 q1.2.2 0.1 = 0.02 →
      0 ≤ q1.1 →
      get_omega_from_PES oracle c4Q c4E (some 0) =
        .ok (HBAR * 2 * Real.sqrt (EV2J / (ANGS2M ^ 2 * AMU2KG)))) := by
  have hlen : ¬ c4E.length < 3 := by simp [c4E]
  refine ⟨?_, ?_, ?_⟩
  · intro h
    rw [get_omega_from_PES, h]
    rfl
  · intro hor _ hm1 h0 h1 _ hge
    obtain ⟨haa, hbb, hcc⟩ :=
      harmonic_exact_fit_recovery q0.1 q0.2.1 q0.2.2 hm1 h0 h1 hge
    have hq : q0 = (2, 0, 0) := by
      obtain ⟨x, y, z⟩ := q0
      simp only at haa hbb hcc
      simp [haa, hbb, hcc]
    refine ⟨hq, ?_⟩
    rw [get_omega_from_PES, curve_fit, if_neg hlen, hor, hq]
    rfl
  · intro hor hm1 h0 h1 hge
    obtain ⟨haa, _, _⟩ :=
      harmonic_exact_fit_recovery q1.1 q1.2.1 q1.2.2 hm1 h0 h1 hge
    rw [get_omega_from_PES, curve_fit, if_neg hlen, hor, ← haa]
    rfl

/-- Witness for C4: the exact-parameter optimizer at the scenario inputs. -/
theorem claim4_get_omega_from_PES_witness :
    ((2 : ℝ), (0 : ℝ), (0 : ℝ)) = (2, 0, 0) ∧
    get_omega_from_PES c4Oracle c4Q c4E none =
      .ok (HBAR * 2 * Real.sqrt (EV2J / (ANGS2M ^ 2 * AMU2KG))) :=
  (claim4_get_omega_from_PES c4Oracle c4Q c4E none (2, 0, 0) (2, 0, 0) (2, 0, 0)).2.1
    rfl (by norm_num [fmodel]) (by norm_num [fmodel]) (by norm_num [fmodel])
    (by norm_num [fmodel]) (by norm_num [fmodel]) (by norm_num)

/-- C5 (amended): `get_omega_from_PES` performs no degeneracy validation of
its own and defines no `DegenerateFitError`/`FitError`: with fewer than 3
samples the underlying `curve_fit` parameter-count check raises (a
`TypeError`) and this propagates to the caller; a failure of the underlying
optimizer propagates unchanged; and whenever the optimizer returns a
parameter triple — as it does on degenerate all-equal-Q inputs where it
converges — the function returns a value rather than an error. -/
theorem claim5_fit_error_propagation (oracle : FitOracle) (Q E : List ℝ)
    (pin : Option ℝ) (msg : String) (p : FitParams) :
    (E.length < 3 → get_omega_from_PES oracle Q E pin =
      .error "TypeError: The number of func parameters must not exceed the number of data points") ∧
    (¬ E.length < 3 → oracle Q E pin = .error msg →
      get_omega_from_PES oracle Q E pin = .error msg) ∧
    (¬ E.length < 3 → oracle Q E pin = .ok p →
      get_omega_from_PES oracle Q E pin =
        .ok (HBAR * p.1 * Real.sqrt (EV2J / (ANGS2M ^ 2 * AMU2KG)))) := by
  refine ⟨?_, ?_, ?_⟩
  · intro h
    rw [get_omega_from_PES, curve_fit, if_pos h]
    rfl
  · intro hlen h
    rw [get_omega_from_PES, curve_fit, if_neg hlen, h]
    rfl
  · intro hlen h
    rw [get_omega_from_PES, curve_fit, if_neg hlen, h]
    rfl

/-- Witness for C5's amended statement: a one-sample call errors with the
propagated parameter-count `TypeError`. -/
theorem claim5_fit_error_propagation_witness :
    get_omega_from_PES c4Oracle [(1 : ℝ)] [(0 : ℝ)] none =
      .error "TypeError: The number of func parameters must not exceed the number of data points" :=
  (claim5_fit_error_propagation c4Oracle [1] [0] none "" (0, 0, 0)).1 (by norm_num)

/-- C5 counterexample: a call with three samples whose Q values are all equal
(`Q = [1,1,1]`, `E = [0,1,2]`) on which the optimizer converges — the
default starting guess `(1,1,1)` is already a global minimum of the
least-squares cost, since the model there predicts the optimal constant 1 at
every sample — returns a value instead of failing with an error, refuting
the claim's all-equal-Q disjunct. -/
theorem claim5_counterexample :
    get_omega_from_PES c5Oracle [1, 1, 1] [0, 1, 2] none =
      .ok (HBAR * 1 * Real.sqrt (EV2J / (ANGS2M ^ 2 * AMU2KG))) := by
  rw [get_omega_from_PES, curve_fit, if_neg (by norm_num)]
  rfl

theorem foldIdx_nested (v : ℕ → α → ℕ → β → ℝ) (dα : α) (dβ : β) (bulk : List β) :
    ∀ (samples : List α) (m0 : ℕ → ℕ → ℝ) (n r k : ℕ),
      foldIdx (fun m i s => foldIdx (fun m' j b => upd2 m' j i (v i s j b)) m 0 bulk)
          m0 n samples r k =
        if n ≤ k ∧ k < n + samples.length ∧ r < bulk.length
        then v k (samples.getD (k - n) dα) r (bulk.getD r dβ)
        else m0 r k := by
  intro samples
  induction samples with
  | nil =>
    intro m0 n r k
    rw [foldIdx]
    simp only [List.length_nil, Nat.add_zero]
    rw [if_neg (by omega)]
  | cons s ss ih =>
    intro m0 n r k
    rw [foldIdx, ih]
    simp only [List.length_cons]
    by_cases h1 : n + 1 ≤ k ∧ k < n + 1 + ss.length ∧ r < bulk.length
    · obtain ⟨ha, hb, hc⟩ := h1
      rw [if_pos ⟨ha, hb, hc⟩]
      have hcond : n ≤ k ∧ k < n + (ss.length + 1) ∧ r < bulk.length :=
        ⟨by omega, by omega, hc⟩
      rw [if_pos hcond]
      have hk : k - n = (k - (n + 1)) + 1 := by omega
      rw [hk]
      simp [List.getD]
    · rw [if_neg h1, foldIdx_upd2_col (fun j b => v n s j b) dβ n bulk m0 0 r k]
      by_cases h2 : k = n ∧ r < bulk.length
      · obtain ⟨hkn, hr⟩ := h2
        have hc1 : k = n ∧ 0 ≤ r ∧ r < 0 + bulk.length := ⟨hkn, by omega, by omega⟩
        have hc2 : n ≤ k ∧ k < n + (ss.length + 1) ∧ r < bulk.length :=
          ⟨by omega, by omega, hr⟩
        rw [if_pos hc1, if_pos hc2]
        subst hkn
        simp [List.getD]
      · have hc1 : ¬ (k = n ∧ 0 ≤ r ∧ r < 0 + bulk.length) := by omega
        rw [if_neg hc1, if_neg (by omega)]

theorem pyEnumMap_congr (d : α) (f g : ℕ → α → β) :
    ∀ (l : List α) (n : ℕ),
      (∀ i, i < l.length → f (n + i) (l.getD i d) = g (n + i) (l.getD i d)) →
      pyEnumMap f n l = pyEnumMap g n l := by
  intro l
  induction l with
  | nil => intro n _; rfl
  | cons a as ih =>
    intro n h
    rw [pyEnumMap, pyEnumMap]
    have h0 := h 0 (by simp)
    simp only [List.getD_cons_zero, Nat.add_zero] at h0
    rw [h0, ih (n + 1) (fun i hi => by
      have := h (i + 1) (by simpa using Nat.succ_lt_succ hi)
      simpa [List.getD_cons_succ, Nat.add_assoc, Nat.add_comm 1 i] using this)]

theorem wcQ_eq_specQSeries (wavecars : List (ℚ × Wavecar)) :
    wcQ wavecars = specQSeries wavecars := by
  funext j
  rw [wcQ, foldIdx_upd (fun _ (qw : ℚ × Wavecar) => ((qw.1 : ℚ) : ℝ)) default, specQSeries]
  by_cases h : j < wavecars.length
  · rw [if_pos ⟨by omega, by omega⟩, dif_pos h,
      List.getD_eq_getElem _ _ (by simpa using h)]
    simp
  · rw [if_neg (by omega), dif_neg h]

theorem wcMatelsInit_apply (Nw : ℕ) (initial : Wavecar) (def_index : ℕ)
    (bulk_index : List ℕ) (spin kpoint : ℕ) (r k : ℕ) :
    wcMatelsInit Nw initial def_index bulk_index spin kpoint r k =
      if k = Nw ∧ r < bulk_index.length
      then _compute_matel (wavecarPsi initial spin kpoint def_index)
        (wavecarPsi initial spin kpoint (bulk_index.getD r 0))
      else 0 := by
  rw [wcMatelsInit,
    foldIdx_upd2_col (fun _ bi => _compute_matel
      (wavecarPsi initial spin kpoint def_index)
      (wavecarPsi initial spin kpoint bi)) 0 Nw bulk_index _ 0 r k]
  by_cases h : k = Nw ∧ r < bulk_index.length
  · rw [if_pos ⟨h.1, by omega, by simpa using h.2⟩, if_pos h]
    simp
  · rw [if_neg (by omega), if_neg h]

theorem wcMatels_row (wavecars : List (ℚ × Wavecar)) (initial : Wavecar)
    (def_index : ℕ) (bulk_index : List ℕ) (spin kpoint : ℕ) (r : ℕ)
    (hr : r < bulk_index.length) :
    (fun k => wcMatels wavecars initial def_index bulk_index spin kpoint r k) =
      specOverlapSeries wavecars initial def_index (bulk_index.getD r 0) spin kpoint := by
  funext k
  rw [wcMatels,
    foldIdx_nested (fun _ qw _ bi => _compute_matel
      (wavecarPsi initial spin kpoint def_index)
      (wavecarPsi qw.2 spin kpoint bi)) default 0 bulk_index wavecars _ 0 r k,
    specOverlapSeries]
  by_cases h : k < wavecars.length
  · rw [if_pos ⟨by omega, by omega, hr⟩, dif_pos h,
      List.getD_eq_getElem _ _ (by simpa using h)]
    simp
  · rw [if_neg (by omega), dif_neg h, wcMatelsInit_apply]
    by_cases hk : k = wavecars.length
    · rw [if_pos ⟨hk, hr⟩, if_pos hk]
    · rw [if_neg (by omega), if_neg hk]

theorem wcDeig_apply (initial : Wavecar) (def_index : ℕ) (bulk_index : List ℕ)
    (spin kpoint : ℕ) (r : ℕ) (hr : r < bulk_index.length) :
    wcDeig initial def_index bulk_index spin kpoint r =
      wavecarEig initial spin kpoint (bulk_index.getD r 0) -
        wavecarEig initial spin kpoint def_index := by
  rw [wcDeig,
    foldIdx_upd (fun _ bi => wavecarEig initial spin kpoint bi -
      wavecarEig initial spin kpoint def_index) 0]
  rw [if_pos ⟨by omega, by simpa using hr⟩]
  simp

/-- C1: each entry of `get_Wif_from_wavecars` is
`(bulk band, |eigenvalue difference| * mean |gradient of overlap vs Q|)` over
all `Nw + 1` points, the extra point being the implicit `Q = 0` anchor whose
overlap uses the initial source as both initial and final state, in the order
of the requested bulk bands. -/
theorem claim1_get_Wif_from_wavecars (wavecars : List (ℚ × Wavecar))
    (initial : Wavecar) (def_index : ℕ) (bulk_index : List ℕ)
    (spin kpoint : ℕ) (hN : 0 < wavecars.length) :
    get_Wif_from_wavecars wavecars initial def_index bulk_index spin kpoint =
      pyEnumMap (fun _ bi =>
        (bi, specWifWavecar wavecars initial def_index bi spin kpoint)) 0 bulk_index := by
  rw [get_Wif_from_wavecars]
  refine pyEnumMap_congr 0 _ _ bulk_index 0 (fun i hi => ?_)
  simp only [Nat.zero_add]
  have hrow := wcMatels_row wavecars initial def_index bulk_index spin kpoint i hi
  have hdeig := wcDeig_apply initial def_index bulk_index spin kpoint i hi
  rw [specWifWavecar, hrow, hdeig, wcQ_eq_specQSeries]

/-- Witness for C1 at a one-sample, one-band concrete call. -/
theorem claim1_get_Wif_from_wavecars_witness :
    get_Wif_from_wavecars [(1, wWavecar)] wWavecar 1 [1] 0 1 =
      pyEnumMap (fun _ bi =>
        (bi, specWifWavecar [(1, wWavecar)] wWavecar 1 bi 0 1)) 0 [1] :=
  claim1_get_Wif_from_wavecars [(1, wWavecar)] wWavecar 1 [1] 0 1 (by norm_num)

theorem wswqQ_apply (wswqs : List (ℚ × WSWQTable)) (j : ℕ) :
    wswqQ wswqs j =
      if h : j < wswqs.length then ((wswqs.get ⟨j, h⟩).1 : ℝ) else 0 := by
  rw [wswqQ, foldIdx_upd (fun _ (s : ℚ × WSWQTable) => ((s.1 : ℚ) : ℝ)) ⟨0, cexTable⟩]
  by_cases h : j < wswqs.length
  · rw [if_pos ⟨by omega, by omega⟩, dif_pos h,
      List.getD_eq_getElem _ _ (by simpa using h)]
    simp
  · rw [if_neg (by omega), dif_neg h]

theorem wswqMatels_apply (wswqs : List (ℚ × WSWQTable)) (def_index : ℕ)
    (bulk_index : List ℕ) (spin kpoint : ℕ) (r k : ℕ) :
    wswqMatels wswqs def_index bulk_index spin kpoint r k =
      if h : k < wswqs.length ∧ r < bulk_index.length
      then npSign (wswqs.get ⟨k, h.1⟩).1 *
        Complex.abs ((wswqs.get ⟨k, h.1⟩).2 (spin + 1, kpoint) (bulk_index.getD r 0, def_index))
      else 0 := by
  rw [wswqMatels,
    foldIdx_nested (fun _ s _ bi => npSign s.1 *
      Complex.abs (s.2 (spin + 1, kpoint) (bi, def_index))) ⟨0, cexTable⟩ 0
      bulk_index wswqs _ 0 r k]
  by_cases h : k < wswqs.length ∧ r < bulk_index.length
  · rw [if_pos ⟨by omega, by omega, h.2⟩, dif_pos h,
      List.getD_eq_getElem _ _ (by simpa using h.1)]
    simp
  · rw [if_neg (by omega), dif_neg h]

theorem wswqDeig_apply (bvr : BSVasprun) (bulk_index : List ℕ)
    (spin kpoint : ℕ) (r : ℕ) (hr : r < bulk_index.length) :
    wswqDeig bvr bulk_index spin kpoint r =
      (bvr.eigenvalues (if spin = 0 then .up else .down) (kpoint - 1)
        ((bulk_index.getD r 0) - 1)).headI := by
  rw [wswqDeig,
    foldIdx_upd (fun _ bi => (bvr.eigenvalues (if spin = 0 then .up else .down)
      (kpoint - 1) (bi - 1)).headI) 0]
  rw [if_pos ⟨by omega, by simpa using hr⟩]
  simp

/-- C2 counterexample: with two samples at `Q = 1, 2` whose parsed overlaps
all have magnitude 1 and unit eigenvalues, the code's fit (which includes the
zero-initialized `(Q=0, overlap=0)` slot) has slope 1/2 per band, while the
claim's literal fit over the provided samples alone has slope 0, so the
results differ. -/
theorem claim2_counterexample :
    get_Wif_from_WSWQ cexSamples cexBvr 1 [2] 0 1 ≠
      pyEnumMap (fun _ bi =>
        (bi, specWifWSWQSamplesOnly cexSamples cexBvr 1 bi 0 1)) 0 [2] := by
  intro hcontra
  have hL : get_Wif_from_WSWQ cexSamples cexBvr 1 [2] 0 1 =
      [(2, (1 / 2 : ℝ))] := by
    rw [get_Wif_from_WSWQ]
    rw [show pyEnumMap (fun i bi =>
        (bi, |wswqDeig cexBvr [2] 0 1 i| *
          npPolyfitSlope (cexSamples.length + 1) (wswqQ cexSamples)
            (fun t => wswqMatels cexSamples 1 [2] 0 1 i t))) 0 [2] =
        [(2, |wswqDeig cexBvr [2] 0 1 0| *
          npPolyfitSlope (cexSamples.length + 1) (wswqQ cexSamples)
            (fun t => wswqMatels cexSamples 1 [2] 0 1 0 t))] from rfl]
    have hdeig : wswqDeig cexBvr [2] 0 1 0 = 1 := by
      rw [wswqDeig_apply cexBvr [2] 0 1 0 (by norm_num)]
      simp [cexBvr]
    have hq : ∀ t, wswqQ cexSamples t = if t = 0 then 1 else if t = 1 then 2 else 0 := by
      intro t
      rw [wswqQ_apply]
      rcases t with _ | _ | t <;> simp [cexSamples]
    have hm : ∀ t, wswqMatels cexSamples 1 [2] 0 1 0 t =
        if t = 0 then 1 else if t = 1 then 1 else 0 := by
      intro t
      rw [wswqMatels_apply]
      rcases t with _ | _ | t <;>
        simp [cexSamples, cexTable, npSign]
    rw [hdeig]
    have hslope : npPolyfitSlope (cexSamples.length + 1) (wswqQ cexSamples)
        (fun t => wswqMatels cexSamples 1 [2] 0 1 0 t) = 1 / 2 := by
      rw [npPolyfitSlope]
      have h3 : cexSamples.length + 1 = 3 := by simp [cexSamples]
      rw [h3]
      rw [Finset.sum_range_succ, Finset.sum_range_succ, Finset.sum_range_one,
        Finset.sum_range_succ, Finset.sum_range_succ, Finset.sum_range_one,
        Finset.sum_range_succ, Finset.sum_range_succ, Finset.sum_range_one,
        Finset.sum_range_succ, Finset.sum_range_succ, Finset.sum_range_one]
      rw [hq 0, hq 1, hq 2, hm 0, hm 1, hm 2]
      norm_num
    rw [hslope]
    norm_num
  have hR : pyEnumMap (fun _ bi =>
      (bi, specWifWSWQSamplesOnly cexSamples cexBvr 1 bi 0 1)) 0 [2] =
      [(2, (0 : ℝ))] := by
    rw [show pyEnumMap (fun _ bi =>
        (bi, specWifWSWQSamplesOnly cexSamples cexBvr 1 bi 0 1)) 0 [2] =
        [(2, specWifWSWQSamplesOnly cexSamples cexBvr 1 2 0 1)] from rfl]
    rw [specWifWSWQSamplesOnly, specEigWSWQ, npPolyfitSlope]
    have h2 : cexSamples.length = 2 := by simp [cexSamples]
    simp only [h2]
    rw [Finset.sum_range_succ, Finset.sum_range_one,
      Finset.sum_range_succ, Finset.sum_range_one,
      Finset.sum_range_succ, Finset.sum_range_one,
      Finset.sum_range_succ, Finset.sum_range_one]
    norm_num [cexSamples, cexTable, cexBvr, specOverlapWSWQ, npSign]
  rw [hL, hR] at hcontra
  norm_num at hcontra

/-- C2 (amended): each sample's overlap entry for a bulk band equals
`sign(Q) * |overlap|` with the overlap read from the parsed table under key
`(spin+1, kpoint)` and band pair `(bulk, defect)`, and each per-band Wif is
the absolute band eigenvalue (first eigenvalue component from the initial
band-energy source) times the slope of the degree-1 fit of the overlap
entries together with the zero-initialized `(Q=0, overlap=0)` anchor slot
versus Q. -/
theorem claim2_get_Wif_from_WSWQ (wswqs : List (ℚ × WSWQTable)) (bvr : BSVasprun)
    (def_index : ℕ) (bulk_index : List ℕ) (spin kpoint : ℕ) :
    (∀ (k r : ℕ) (hk : k < wswqs.length), r < bulk_index.length →
      wswqMatels wswqs def_index bulk_index spin kpoint r k =
        specOverlapWSWQ (wswqs.get ⟨k, hk⟩) def_index (bulk_index.getD r 0) spin kpoint) ∧
    get_Wif_from_WSWQ wswqs bvr def_index bulk_index spin kpoint =
      pyEnumMap (fun _ bi =>
        (bi, specWifWSWQ wswqs bvr def_index bi spin kpoint)) 0 bulk_index := by
  constructor
  · intro k r hk hr
    rw [wswqMatels_apply, dif_pos ⟨hk, hr⟩, specOverlapWSWQ]
  · rw [get_Wif_from_WSWQ]
    refine pyEnumMap_congr 0 _ _ bulk_index 0 (fun i hi => ?_)
    simp only [Nat.zero_add]
    have hdeig := wswqDeig_apply bvr bulk_index spin kpoint i hi
    have hq : wswqQ wswqs =
        (fun t => if h : t < wswqs.length then ((wswqs.get ⟨t, h⟩).1 : ℝ) else 0) := by
      funext t
      rw [wswqQ_apply]
    have hrow : (fun t => wswqMatels wswqs def_index bulk_index spin kpoint i t) =
        (fun t => if h : t < wswqs.length
          then specOverlapWSWQ (wswqs.get ⟨t, h⟩) def_index (bulk_index.getD i 0) spin kpoint
          else 0) := by
      funext t
      rw [wswqMatels_apply]
      by_cases h : t < wswqs.length
      · rw [dif_pos ⟨h, hi⟩, dif_pos h, specOverlapWSWQ]
      · rw [dif_neg (by omega), dif_neg h]
    rw [specWifWSWQ, specEigWSWQ, hdeig, hq, hrow]

/-- Witness for C2's amended statement at the concrete two-sample call. -/
theorem claim2_get_Wif_from_WSWQ_witness :
    wswqMatels cexSamples 1 [2] 0 1 0 0 =
      specOverlapWSWQ (cexSamples.get ⟨0, by norm_num [cexSamples]⟩) 1
        ([2].getD 0 0) 0 1 ∧
    get_Wif_from_WSWQ cexSamples cexBvr 1 [2] 0 1 =
      pyEnumMap (fun _ bi => (bi, specWifWSWQ cexSamples cexBvr 1 bi 0 1)) 0 [2] :=
  ⟨(claim2_get_Wif_from_WSWQ cexSamples cexBvr 1 [2] 0 1).1 0 0
      (by norm_num [cexSamples]) (by norm_num),
   (claim2_get_Wif_from_WSWQ cexSamples cexBvr 1 [2] 0 1).2⟩

/-- C3: the `Q` and overlap arrays of `get_Wif_from_WSWQ` are allocated with
`Nw + 1` zero slots and their last slot is never assigned, so the fit always
includes an extra point at `Q = 0` with overlap exactly 0 that is read from
no input file; and a sample supplied with `Q = 0` records overlap 0 whatever
its parsed table holds, because `sign(0) = 0`. -/
theorem claim3_wswq_zero_anchor (wswqs : List (ℚ × WSWQTable)) (def_index : ℕ)
    (bulk_index : List ℕ) (spin kpoint : ℕ) (r k : ℕ) :
    wswqQ wswqs wswqs.length = 0 ∧
    wswqMatels wswqs def_index bulk_index spin kpoint r wswqs.length = 0 ∧
    (∀ (hk : k < wswqs.length), (wswqs.get ⟨k, hk⟩).1 = 0 →
      wswqMatels wswqs def_index bulk_index spin kpoint r k = 0) := by
  refine ⟨?_, ?_, ?_⟩
  · rw [wswqQ_apply, dif_neg (by omega)]
  · rw [wswqMatels_apply, dif_neg (by omega)]
  · intro hk hq0
    rw [wswqMatels_apply]
    by_cases h : k < wswqs.length ∧ r < bulk_index.length
    · rw [dif_pos h]
      have : npSign (wswqs.get ⟨k, h.1⟩).1 = 0 := by
        rw [show (wswqs.get ⟨k, h.1⟩).1 = 0 from hq0, npSign]
        norm_num
      rw [this, zero_mul]
    · rw [dif_neg h]

/-- Witness for C3's `Q = 0` sample conjunct at a concrete one-sample call. -/
theorem claim3_wswq_zero_anchor_witness :
    wswqQ [((0 : ℚ), cexTable)] [((0 : ℚ), cexTable)].length = 0 ∧
    wswqMatels [((0 : ℚ), cexTable)] 1 [2] 0 1 0 [((0 : ℚ), cexTable)].length = 0 ∧
    wswqMatels [((0 : ℚ), cexTable)] 1 [2] 0 1 0 0 = 0 :=
  ⟨(claim3_wswq_zero_anchor [((0 : ℚ), cexTable)] 1 [2] 0 1 0 0).1,
   (claim3_wswq_zero_anchor [((0 : ℚ), cexTable)] 1 [2] 0 1 0 0).2.1,
   (claim3_wswq_zero_anchor [((0 : ℚ), cexTable)] 1 [2] 0 1 0 0).2.2
     (by norm_num) rfl⟩

theorem wswqRun_data_before_marker :
    ∀ (lines : List String) (i : ℕ) (dict : WSWQDict), i < lines.length →
      (∀ j, j < i → classifyLine (lines.getD j "") = .other) →
      (∃ a b x y, classifyLine (lines.getD i "") = WSWQLine.data a b x y) →
      wswqRun (none, dict) lines = .error "KeyError: None" := by
  intro lines
  induction lines with
  | nil => intro i dict hi _ _; simp at hi
  | cons l ls ih =>
    intro i dict hi hskip hdata
    cases i with
    | zero =>
      obtain ⟨a, b, x, y, hd⟩ := hdata
      simp only [List.getD_cons_zero] at hd
      rw [wswqRun, wswqStep, hd]
    | succ i' =>
      have h0 := hskip 0 (Nat.succ_pos i')
      simp only [List.getD_cons_zero] at h0
      rw [wswqRun, wswqStep, h0]
      refine ih i' dict (by simpa using hi) (fun j hj => ?_) ?_
      · have := hskip (j + 1) (by omega)
        simpa [List.getD_cons_succ] using this
      · obtain ⟨a, b, x, y, hd⟩ := hdata
        simp only [List.getD_cons_succ] at hd
        exact ⟨a, b, x, y, hd⟩

/-- C8: a data line with no preceding section marker makes `_read_WSWQ` fail
with the missing-context error; a line matching neither pattern leaves the
scan state unchanged; a marker line installs the new active context with a
fresh empty mapping; a data line under an active context inserts the complex
value keyed by its band pair into that context's mapping; and on the
specification's two-marker scenario the parser produces two top-level keys,
each carrying its own mapping `{(1, 2) ↦ 0.5 - 0.25i}`. -/
theorem claim8_read_WSWQ (lines : List String) (i : ℕ)
    (st : Option (ℕ × ℕ) × WSWQDict) (l : String) (s k a b : ℕ) (re im : ℚ)
    (cur : ℕ × ℕ) (inner : List ((ℕ × ℕ) × (ℚ × ℚ))) :
    (i < lines.length →
      (∀ j, j < i → classifyLine (lines.getD j "") = .other) →
      (∃ a' b' x y, classifyLine (lines.getD i "") = WSWQLine.data a' b' x y) →
      _read_WSWQ lines = .error "KeyError: None") ∧
    (classifyLine l = .other → wswqStep st l = .ok st) ∧
    (classifyLine l = .marker s k →
      wswqStep st l = .ok (some (s, k), dictSet st.2 (s, k) [])) ∧
    (classifyLine l = .data a b re im → st.1 = some cur →
      dictGet st.2 cur = some inner →
      wswqStep st l = .ok (st.1, dictSet st.2 cur (dictSet inner (a, b) (re, im)))) ∧
    _read_WSWQ ["spin=1, kpoint=   1", "i=  1, j=  2 :  0.5  -0.25",
        "spin=1, kpoint=   2", "i=  1, j=  2 :  0.5  -0.25"] =
      .ok [((1, 1), [((1, 2), (1/2, -(1/4)))]), ((1, 2), [((1, 2), (1/2, -(1/4)))])] := by
  refine ⟨?_, ?_, ?_, ?_, ?_⟩
  · intro hi hskip hdata
    rw [_read_WSWQ, wswqRun_data_before_marker lines i [] hi hskip hdata]
    rfl
  · intro h
    rw [wswqStep, h]
  · intro h
    rw [wswqStep, h]
  · intro hd hcur hinner
    simp [wswqStep, hd, hcur, hinner]
  · have h1 : ((digitsToNat ['0'] 0 : ℚ) +
        (digitsToNat ['5'] 0 : ℚ) / 10 ^ (['5'] : List Char).length) = (1/2 : ℚ) := by
      norm_num [digitsToNat, show '5'.toNat - '0'.toNat = 5 from by decide,
        show '0'.toNat - '0'.toNat = 0 from by decide]
    have h2 : (-((digitsToNat ['0'] 0 : ℚ) +
        (digitsToNat ['2', '5'] 0 : ℚ) / 10 ^ (['2', '5'] : List Char).length)) =
        (-(1/4) : ℚ) := by
      norm_num [digitsToNat, show '5'.toNat - '0'.toNat = 5 from by decide,
        show '2'.toNat - '0'.toNat = 2 from by decide,
        show '0'.toNat - '0'.toNat = 0 from by decide]
    have hr : _read_WSWQ ["spin=1, kpoint=   1", "i=  1, j=  2 :  0.5  -0.25",
        "spin=1, kpoint=   2", "i=  1, j=  2 :  0.5  -0.25"] =
      .ok [((1, 1), [((1, 2),
            (((digitsToNat ['0'] 0 : ℚ) +
                (digitsToNat ['5'] 0 : ℚ) / 10 ^ (['5'] : List Char).length),
             (-((digitsToNat ['0'] 0 : ℚ) +
                (digitsToNat ['2', '5'] 0 : ℚ) / 10 ^ (['2', '5'] : List Char).length))))]),
          ((1, 2), [((1, 2),
            (((digitsToNat ['0'] 0 : ℚ) +
                (digitsToNat ['5'] 0 : ℚ) / 10 ^ (['5'] : List Char).length),
             (-((digitsToNat ['0'] 0 : ℚ) +
                (digitsToNat ['2', '5'] 0 : ℚ) / 10 ^ (['2', '5'] : List Char).length))))])] := by
      rfl
    rw [hr, h1, h2]

/-- Witness for C8: the error conjunct at a one-line stream starting with a
data line, and the skip conjunct at a non-matching line. -/
theorem claim8_read_WSWQ_witness :
    _read_WSWQ ["i=  1, j=  2 :  0.5  -0.25"] = .error "KeyError: None" ∧
    wswqStep (some (9, 9), []) "lattice vectors" = .ok (some (9, 9), []) :=
  ⟨(claim8_read_WSWQ ["i=  1, j=  2 :  0.5  -0.25"] 0 (some (9, 9), [])
      "lattice vectors" 0 0 0 0 0 0 (0, 0) []).1 (by norm_num)
      (fun j hj => absurd hj (by omega))
      ⟨1, 2, _, _, rfl⟩,
   (claim8_read_WSWQ ["i=  1, j=  2 :  0.5  -0.25"] 0 (some (9, 9), [])
      "lattice vectors" 0 0 0 0 0 0 (0, 0) []).2.1 (by decide)⟩

theorem roundHalfEven_sub_le (y : ℚ) : |((roundHalfEven y : ℤ) : ℚ) - y| ≤ 1 / 2 := by
  have hf1 : ((⌊y⌋ : ℤ) : ℚ) ≤ y := Int.floor_le y
  have hf2 : y < ((⌊y⌋ : ℤ) : ℚ) + 1 := Int.lt_floor_add_one y
  rw [roundHalfEven]
  by_cases h1 : y - ⌊y⌋ < 1 / 2
  · rw [if_pos h1, abs_le]
    constructor <;> linarith
  · rw [if_neg h1]
    by_cases h2 : 1 / 2 < y - ⌊y⌋
    · rw [if_pos h2]
      rw [abs_le]
      push_cast
      constructor <;> linarith
    · rw [if_neg h2]
      have heq : y - ⌊y⌋ = 1 / 2 := by linarith
      by_cases h3 : 2 ∣ ⌊y⌋
      · rw [if_pos h3, abs_le]
        constructor <;> linarith
      · rw [if_neg h3, abs_le]
        push_cast
        constructor <;> linarith

theorem round6_sub_le (q : ℚ) : |round6 q - q| ≤ 1 / (2 * 10 ^ 6) := by
  rw [round6]
  have h := roundHalfEven_sub_le (q * 10 ^ 6)
  have h10 : (0 : ℚ) < 10 ^ 6 := by norm_num
  rw [show ((roundHalfEven (q * 10 ^ 6) : ℤ) : ℚ) / 10 ^ 6 - q =
      (((roundHalfEven (q * 10 ^ 6) : ℤ) : ℚ) - q * 10 ^ 6) / 10 ^ 6 by
    field_simp
    ring]
  rw [abs_div, abs_of_pos h10, div_le_iff h10]
  calc |((roundHalfEven (q * 10 ^ 6) : ℤ) : ℚ) - q * 10 ^ 6| ≤ 1 / 2 := h
  _ = 1 / (2 * 10 ^ 6) * 10 ^ 6 := by norm_num

theorem pyDiv_interp (t d : ℚ) :
    pyDiv (t * d) d = NumVal.val t ∨ pyDiv (t * d) d = NumVal.nan := by
  by_cases hd : d = 0
  · subst hd
    right
    rw [pyDiv, if_pos rfl, if_pos (mul_zero t)]
  · left
    rw [pyDiv, if_neg hd]
    rw [mul_div_assoc, div_self hd, mul_one]

theorem possible_x_interp_elems (t tol : ℚ) :
    ∀ (g e : List Site), ∀ x ∈ possible_x g e ((interpolateAt ⟨g⟩ ⟨e⟩ t).sites) tol,
      x = NumVal.val t ∨ x = NumVal.nan := by
  intro g
  induction g with
  | nil => intro e x hx; simp [possible_x] at hx
  | cons a as ih =>
    intro e x hx
    cases e with
    | nil => simp [interpolateAt, possible_x] at hx
    | cons b bs =>
      have hsites : (interpolateAt ⟨a :: as⟩ ⟨b :: bs⟩ t).sites =
          ({ mass := a.mass, cx := a.cx + t * (b.cx - a.cx),
             cy := a.cy + t * (b.cy - a.cy), cz := a.cz + t * (b.cz - a.cz) } : Site) ::
          (interpolateAt ⟨as⟩ ⟨bs⟩ t).sites := rfl
      rw [hsites] at hx
      simp only [possible_x] at hx
      rcases List.mem_append.mp hx with hblk | htl
      · by_cases hskip : siteSkip a b tol
        · rw [if_pos hskip] at hblk
          simp at hblk
        · rw [if_neg hskip] at hblk
          have hx1 : (a.cx + t * (b.cx - a.cx)) - a.cx = t * (b.cx - a.cx) := by ring
          have hy1 : (a.cy + t * (b.cy - a.cy)) - a.cy = t * (b.cy - a.cy) := by ring
          have hz1 : (a.cz + t * (b.cz - a.cz)) - a.cz = t * (b.cz - a.cz) := by ring
          simp only [List.mem_cons, List.not_mem_nil, or_false] at hblk
          rcases hblk with h | h | h
          · rw [h, hx1]; exact pyDiv_interp t _
          · rw [h, hy1]; exact pyDiv_interp t _
          · rw [h, hz1]; exact pyDiv_interp t _
      · exact ih bs x htl

theorem distSq_pos_coord (a b : Site) (h : 0 < distSq a b) :
    b.cx - a.cx ≠ 0 ∨ b.cy - a.cy ≠ 0 ∨ b.cz - a.cz ≠ 0 := by
  by_contra hc
  push_neg at hc
  obtain ⟨h1, h2, h3⟩ := hc
  rw [distSq] at h
  have e1 : a.cx - b.cx = 0 := by linarith [h1]
  have e2 : a.cy - b.cy = 0 := by linarith [h2]
  have e3 : a.cz - b.cz = 0 := by linarith [h3]
  rw [e1, e2, e3] at h
  norm_num at h

theorem possible_x_interp_mem (t tol : ℚ) (htol : 0 < tol) :
    ∀ (g e : List Site) (i : ℕ), i < g.length → i < e.length →
      siteSkip (g.getD i default) (e.getD i default) tol = false →
      NumVal.val t ∈ possible_x g e ((interpolateAt ⟨g⟩ ⟨e⟩ t).sites) tol := by
  intro g
  induction g with
  | nil => intro e i hi _ _; simp at hi
  | cons a as ih =>
    intro e i hig hie hskip
    cases e with
    | nil => simp at hie
    | cons b bs =>
      have hsites : (interpolateAt ⟨a :: as⟩ ⟨b :: bs⟩ t).sites =
          ({ mass := a.mass, cx := a.cx + t * (b.cx - a.cx),
             cy := a.cy + t * (b.cy - a.cy), cz := a.cz + t * (b.cz - a.cz) } : Site) ::
          (interpolateAt ⟨as⟩ ⟨bs⟩ t).sites := rfl
      rw [hsites]
      simp only [possible_x]
      cases i with
      | zero =>
        simp only [List.getD_cons_zero] at hskip
        have hnotlt : ¬ distSq a b < tol ^ 2 := by
          intro hlt
          rw [siteSkip] at hskip
          simp [htol, hlt] at hskip
        have hdpos : 0 < distSq a b := by
          have : (0 : ℚ) < tol ^ 2 := by positivity
          linarith [not_lt.mp hnotlt]
        refine List.mem_append.mpr (Or.inl ?_)
        rw [if_neg (by rw [hskip]; exact Bool.false_ne_true)]
        have hx1 : (a.cx + t * (b.cx - a.cx)) - a.cx = t * (b.cx - a.cx) := by ring
        have hy1 : (a.cy + t * (b.cy - a.cy)) - a.cy = t * (b.cy - a.cy) := by ring
        have hz1 : (a.cz + t * (b.cz - a.cz)) - a.cz = t * (b.cz - a.cz) := by ring
        rcases distSq_pos_coord a b hdpos with hd | hd | hd
        · have : pyDiv ((a.cx + t * (b.cx - a.cx)) - a.cx) (b.cx - a.cx) = NumVal.val t := by
            rw [hx1, pyDiv, if_neg hd, mul_div_assoc, div_self hd, mul_one]
          rw [this]
          simp
        · have : pyDiv ((a.cy + t * (b.cy - a.cy)) - a.cy) (b.cy - a.cy) = NumVal.val t := by
            rw [hy1, pyDiv, if_neg hd, mul_div_assoc, div_self hd, mul_one]
          rw [this]
          simp
        · have : pyDiv ((a.cz + t * (b.cz - a.cz)) - a.cz) (b.cz - a.cz) = NumVal.val t := by
            rw [hz1, pyDiv, if_neg hd, mul_div_assoc, div_self hd, mul_one]
          rw [this]
          simp
      | succ i' =>
        refine List.mem_append.mpr (Or.inr ?_)
        exact ih bs i' (by simpa using hig) (by simpa using hie)
          (by simpa [List.getD_cons_succ] using hskip)

theorem nvInsert_val_sorted (c : ℚ) (m k : ℕ) :
    nvInsert (NumVal.val c) (List.replicate m (NumVal.val c) ++ List.replicate k NumVal.nan) =
      List.replicate (m + 1) (NumVal.val c) ++ List.replicate k NumVal.nan := by
  cases m with
  | zero =>
    cases k with
    | zero => rfl
    | succ k' =>
      simp only [List.replicate_succ, List.nil_append, nvInsert, nvLe]
      rfl
  | succ m' =>
    simp only [List.replicate_succ, List.cons_append, nvInsert, nvLe]
    rw [if_pos (by simp)]
    rfl

theorem nvInsert_nan_sorted (c : ℚ) (m k : ℕ) :
    nvInsert NumVal.nan (List.replicate m (NumVal.val c) ++ List.replicate k NumVal.nan) =
      List.replicate m (NumVal.val c) ++ List.replicate (k + 1) NumVal.nan := by
  induction m with
  | zero =>
    cases k with
    | zero => rfl
    | succ k' =>
      simp only [List.replicate_succ, List.nil_append, nvInsert, nvLe]
      rfl
  | succ m' ih =>
    simp only [List.replicate_succ, List.cons_append, nvInsert, nvLe]
    rw [if_neg (by simp)]
    simp only [List.append_eq]
    rw [ih, List.replicate_succ]

theorem pySort_two_values (c : ℚ) :
    ∀ (l : List NumVal), (∀ x ∈ l, x = NumVal.val c ∨ x = NumVal.nan) →
      pySort l = List.replicate (l.count (NumVal.val c)) (NumVal.val c) ++
        List.replicate (l.count NumVal.nan) NumVal.nan := by
  intro l
  induction l with
  | nil => intro _; rfl
  | cons a l ih =>
    intro h
    have htail := ih (fun x hx => h x (List.mem_cons_of_mem a hx))
    rcases h a (List.mem_cons_self a l) with ha | ha
    · subst ha
      rw [pySort, htail, nvInsert_val_sorted]
      rw [List.count_cons_self, List.count_cons_of_ne (by simp)]
    · subst ha
      rw [pySort, htail, nvInsert_nan_sorted]
      rw [List.count_cons_self, List.count_cons_of_ne (by simp)]

theorem groupRuns_replicate_nan (k : ℕ) :
    groupRuns (List.replicate k NumVal.nan) = List.replicate k (NumVal.nan, 1) := by
  induction k with
  | zero => rfl
  | succ k ih =>
    rw [List.replicate_succ, groupRuns, ih]
    cases k with
    | zero => rfl
    | succ k' =>
      simp [List.replicate_succ, nvEq]

theorem groupRuns_val_block (c : ℚ) (m k : ℕ) :
    groupRuns (List.replicate (m + 1) (NumVal.val c) ++ List.replicate k NumVal.nan) =
      (NumVal.val c, m + 1) :: List.replicate k (NumVal.nan, 1) := by
  induction m with
  | zero =>
    simp only [List.replicate_succ, List.replicate_zero, List.cons_append, List.nil_append]
    rw [groupRuns, groupRuns_replicate_nan]
    cases k with
    | zero => rfl
    | succ k' =>
      simp [List.replicate_succ, nvEq]
  | succ m' ih =>
    rw [show List.replicate (m' + 1 + 1) (NumVal.val c) ++ List.replicate k NumVal.nan =
        NumVal.val c :: (List.replicate (m' + 1) (NumVal.val c) ++
          List.replicate k NumVal.nan) from by simp [List.replicate_succ]]
    rw [groupRuns, ih]
    simp [nvEq]

theorem pickFirstMax_val_first (c : ℚ) (m k : ℕ) (hm : 1 ≤ m) :
    pickFirstMax ((NumVal.val c, m) :: List.replicate k (NumVal.nan, 1)) =
      some (NumVal.val c, m) := by
  rw [pickFirstMax]
  congr 1
  induction k with
  | zero => rfl
  | succ k' ih =>
    rw [List.replicate_succ, List.foldl_cons]
    rw [show (if (NumVal.val c, m).2 < (NumVal.nan, 1).2 then (NumVal.nan, 1)
        else (NumVal.val c, m)) = (NumVal.val c, m) from by
      rw [if_neg (by simp; omega)]]
    exact ih

theorem get_Q_mode_interp (g e : Struct) (t tol : ℚ) (htol : 0 < tol)
    (hlen : g.sites.length = e.sites.length)
    (hqual : ∃ i, i < g.sites.length ∧
      siteSkip (g.sites.getD i default) (e.sites.getD i default) tol = false) :
    get_Q_mode g e (interpolateAt g e t) tol = some (NumVal.val (round6 t)) := by
  obtain ⟨i, hi, hskip⟩ := hqual
  have helems : ∀ x ∈ (possible_x g.sites e.sites ((interpolateAt g e t).sites) tol).map
      nvRound6, x = NumVal.val (round6 t) ∨ x = NumVal.nan := by
    intro x hx
    obtain ⟨y, hy, hxy⟩ := List.mem_map.mp hx
    rcases possible_x_interp_elems t tol g.sites e.sites y hy with h | h
    · left; rw [← hxy, h]; rfl
    · right; rw [← hxy, h]; rfl
  have hmem : NumVal.val (round6 t) ∈
      (possible_x g.sites e.sites ((interpolateAt g e t).sites) tol).map nvRound6 := by
    have hv := possible_x_interp_mem t tol htol g.sites e.sites i hi (hlen ▸ hi) hskip
    exact List.mem_map.mpr ⟨NumVal.val t, hv, rfl⟩
  have hm1 : 0 < ((possible_x g.sites e.sites ((interpolateAt g e t).sites) tol).map
      nvRound6).count (NumVal.val (round6 t)) := List.count_pos_iff_mem.mpr hmem
  obtain ⟨m', hm'⟩ := Nat.exists_eq_add_of_lt hm1
  rw [Nat.zero_add] at hm'
  rw [get_Q_mode, pySort_two_values (round6 t) _ helems, hm', groupRuns_val_block,
    pickFirstMax_val_first _ _ _ (by omega)]
  rfl

/-- C6: a structure built at fraction `t` along the ground-to-excited path,
fed back through `get_Q_from_struct` and divided by `get_dQ`, recovers `t`
within the 6-decimal rounding tolerance, provided the tolerance leaves a
qualifying site and `dQ` is nonzero. -/
theorem claim6_round_trip (g e : Struct) (t tol : ℚ) (htol : 0 < tol)
    (hlen : g.sites.length = e.sites.length)
    (hqual : ∃ i, i < g.sites.length ∧
      siteSkip (g.sites.getD i default) (e.sites.getD i default) tol = false)
    (hdq : get_dQ g e ≠ 0) :
    ∃ Q, get_Q_from_struct g e (interpolateAt g e t) tol = some Q ∧
      |Q / get_dQ g e - (t : ℝ)| ≤ 1 / (2 * 10 ^ 6) := by
  refine ⟨get_dQ g e * ((round6 t : ℚ) : ℝ), ?_, ?_⟩
  · rw [get_Q_from_struct, get_Q_mode_interp g e t tol htol hlen hqual]
    rfl
  · rw [mul_div_cancel_left₀ _ hdq]
    have hq := round6_sub_le t
    rw [show ((round6 t : ℚ) : ℝ) - (t : ℝ) = ((round6 t - t : ℚ) : ℝ) by push_cast; ring,
      ← Rat.cast_abs]
    calc ((|round6 t - t| : ℚ) : ℝ) ≤ ((1 / (2 * 10 ^ 6) : ℚ) : ℝ) := by exact_mod_cast hq
    _ = 1 / (2 * 10 ^ 6) := by norm_num

/-- Witness for C6 at a one-site pair with `t = 1/3` and `tol = 1/2`. -/
theorem claim6_round_trip_witness :
    ∃ Q, get_Q_from_struct wStructG wStructE
        (interpolateAt wStructG wStructE (1/3)) (1/2) = some Q ∧
      |Q / get_dQ wStructG wStructE - ((1/3 : ℚ) : ℝ)| ≤ 1 / (2 * 10 ^ 6) :=
  claim6_round_trip wStructG wStructE (1/3) (1/2) (by norm_num) rfl
    ⟨0, by norm_num [wStructG],
      by norm_num [wStructG, wStructE, siteSkip, distSq]⟩
    (by
      rw [get_dQ]
      have h1 : ((List.zipWith (fun a b => distSq a b * a.mass)
          wStructG.sites wStructE.sites).sum : ℚ) = 1 := by
        norm_num [wStructG, wStructE, distSq]
      rw [h1]
      norm_num)
